import Mathlib

/-!
# Verification of the fund-plan-thrive ledger and curation services

Shallow embedding of `src/services/finance/index.ts` (ledger reconciliation:
`upsertAsset` / `upsertDebt` / `mergeAsset` / `mergeDebt` / `createGoal` /
`getFinancialHistory`, plus the per-key promise queue `runSerialized`) and of
the resource-curation guardrails (`curateResources` in the curation module,
`extractIntentSpec` in the intent module).

Modelling conventions:
* Timestamps are natural numbers, compared numerically exactly as JS `Date`
  objects compare.  For `getFinancialHistory` the source buckets timestamps to
  calendar days (`toISOString().split('T')[0]`) and compares against the end of
  that day; we model effective dates at day granularity, at which the bucketing
  map is the identity and the end-of-day cutoff `h <= day end` is `h <= d`.
* Monetary values are integers (the claims under study do not depend on the
  decimal scale of values, only on equality and addition).
* Strings are Lean strings; JS `trim()` / `toLowerCase()` (used for name
  normalization) are embedded as the character-level `strTrim` / `strLower`
  below, which agree with them on the plain text in play.
* Database tables are in-memory lists in insertion order; SQL
  `ORDER BY effectiveDate` is modelled by a stable insertion sort.
* The external LLM call of each wrapped service is an oracle: the model takes
  the already-parsed response as an input (`none` standing for a response from
  which no JSON object could be extracted / parsed).
-/

namespace FundPlan

/-- Timestamps (JS `Date` values), compared numerically. -/
abbrev Timestamp := Nat

/-- JS `String.prototype.toLowerCase` (character-wise lowering on the plain
text in play). -/
def strLower (s : String) : String := ⟨s.data.map Char.toLower⟩

/-- JS `String.prototype.trim`: strip leading and trailing whitespace. -/
def strTrim (s : String) : String :=
  ⟨((s.data.dropWhile Char.isWhitespace).reverse.dropWhile Char.isWhitespace).reverse⟩

/-! ## Data model: assets / debts (symmetric entities, `src/db/schema`) -/

/-- A row of the `assets` (resp. `debts`) main table. -/
structure Account where
  id : Nat
  userId : String
  type : String
  name : String
  value : Int
  effectiveDate : Timestamp
  updatedDate : Timestamp
  source : String
  isActive : Bool
deriving Repr, DecidableEq

/-- A row of the `assetsHistory` (resp. `debtsHistory`) table. -/
structure HistoryRow where
  accountId : Nat
  value : Int
  effectiveDate : Timestamp
  source : String
deriving Repr, DecidableEq

/-- One of the two symmetric account stores (`assets`+`assetsHistory`, or
`debts`+`debtsHistory`).  `nextId` models the id sequence of the table. -/
structure AccountTable where
  rows : List Account
  history : List HistoryRow
  nextId : Nat
deriving Repr, DecidableEq

/-- The drizzle `where` clause shared by `upsertAsset`/`upsertDebt`/
`mergeAsset`/`mergeDebt`:
`eq(userId) AND lower(name) = lower(trim(incoming)) AND eq(type)`. -/
def matchesKey (userId ty name : String) (a : Account) : Bool :=
  a.userId == userId && strLower a.name == strLower (strTrim name) && a.type == ty

/-- Core of `upsertAsset` / `upsertDebt` (the two functions are textually
identical up to the table they touch).  Returns the new table and the id the
service returns.  `now` models `new Date()` taken for `updatedDate`. -/
def upsertAccount (t : AccountTable) (userId ty name : String) (value : Int)
    (effectiveDate : Timestamp) (source : String) (isActive : Bool)
    (now : Timestamp) : AccountTable × Nat :=
  match t.rows.find? (matchesKey userId ty name) with
  | some a =>
      -- Only update the main record if the new data is newer or equal.
      let rows :=
        if a.effectiveDate ≤ effectiveDate then
          t.rows.map (fun r =>
            if r.id == a.id then
              { r with value := value, effectiveDate := effectiveDate,
                       updatedDate := now, source := source, isActive := isActive }
            else r)
        else t.rows
      ({ t with rows := rows,
                history := t.history ++ [⟨a.id, value, effectiveDate, source⟩] },
       a.id)
  | none =>
      let newId := t.nextId
      ({ rows := t.rows ++
           [{ id := newId, userId := userId, type := ty, name := strTrim name,
              value := value, effectiveDate := effectiveDate, updatedDate := now,
              source := source, isActive := isActive }],
         history := t.history ++ [⟨newId, value, effectiveDate, source⟩],
         nextId := newId + 1 },
       newId)

/-- Core of `mergeAsset` / `mergeDebt`.  Fails (`Error: No existing ... found`)
when no record matches `(userId, lower(oldName), type)`; otherwise renames when
the new name differs case-insensitively, applies the effective-date-gated value
update, and always appends history under the original record id.  The returned
`Bool` is the `nameUpdated` flag of the service's result. -/
def mergeAccount (t : AccountTable) (userId existingName newName ty : String)
    (value : Int) (effectiveDate : Timestamp) (now : Timestamp) :
    Except String (AccountTable × Nat × Bool) :=
  match t.rows.find? (matchesKey userId ty existingName) with
  | none => .error ("No existing account found: " ++ existingName)
  | some a =>
      let rename := strLower (strTrim newName) != strLower (strTrim existingName)
      let newer := a.effectiveDate ≤ effectiveDate
      let rows := t.rows.map (fun r =>
        if r.id == a.id then
          { r with
            updatedDate := now,
            name := if rename then strTrim newName else r.name,
            value := if newer then value else r.value,
            effectiveDate := if newer then effectiveDate else r.effectiveDate }
        else r)
      .ok ({ t with rows := rows,
                    history := t.history ++ [⟨a.id, value, effectiveDate, "user_input"⟩] },
           a.id, rename)

/-! ## Data model: goals, steps, resources -/

/-- A row of the `goals` table. -/
structure Goal where
  id : Nat
  userId : String
  title : String
  description : String
  targetAmount : Option Int
  currentAmount : Int
  status : String
deriving Repr, DecidableEq

/-- A row of the `goalSteps` table (`order` is stored as text in the schema). -/
structure GoalStep where
  id : Nat
  goalId : Nat
  description : String
  order : String
  isCompleted : Bool
  isUserDefined : Bool
deriving Repr, DecidableEq

/-- A row of the `goalResources` table (only the fields `createGoal` writes). -/
structure GoalResource where
  stepId : Nat
  title : String
  url : String
deriving Repr, DecidableEq

/-- A step of the `createGoal` payload. -/
structure StepInput where
  description : String
  isUserDefined : Bool
deriving Repr, DecidableEq

/-- An optional resource of the `createGoal` payload. -/
structure ResourceInput where
  stepIndex : Nat
  title : String
  url : String
deriving Repr, DecidableEq

/-- The whole database state touched by the finance service. -/
structure DB where
  assets : AccountTable
  debts : AccountTable
  goals : List Goal
  goalSteps : List GoalStep
  goalResources : List GoalResource
  nextGoalId : Nat
  nextStepId : Nat
deriving Repr, DecidableEq

/-! ## financeService: asset/debt operations -/

/-- `financeService.upsertAsset`. -/
def upsertAsset (db : DB) (userId ty name : String) (value : Int)
    (effectiveDate : Timestamp) (source : String) (isActive : Bool)
    (now : Timestamp) : DB × Nat :=
  let r := upsertAccount db.assets userId ty name value effectiveDate source isActive now
  ({ db with assets := r.1 }, r.2)

/-- `financeService.upsertDebt`. -/
def upsertDebt (db : DB) (userId ty name : String) (value : Int)
    (effectiveDate : Timestamp) (source : String) (isActive : Bool)
    (now : Timestamp) : DB × Nat :=
  let r := upsertAccount db.debts userId ty name value effectiveDate source isActive now
  ({ db with debts := r.1 }, r.2)

/-- `financeService.mergeAsset`. -/
def mergeAsset (db : DB) (userId existingName newName ty : String) (value : Int)
    (effectiveDate : Timestamp) (now : Timestamp) :
    Except String (DB × Nat × Bool) :=
  (mergeAccount db.assets userId existingName newName ty value effectiveDate now).map
    (fun r => ({ db with assets := r.1 }, r.2))

/-- `financeService.mergeDebt`. -/
def mergeDebt (db : DB) (userId existingName newName ty : String) (value : Int)
    (effectiveDate : Timestamp) (now : Timestamp) :
    Except String (DB × Nat × Bool) :=
  (mergeAccount db.debts userId existingName newName ty value effectiveDate now).map
    (fun r => ({ db with debts := r.1 }, r.2))

/-! ## Goal deduplication: Levenshtein similarity

`calculateSimilarity` in the source delegates to the `fastest-levenshtein`
npm package's `distance`; we embed the standard Levenshtein edit distance
(dynamic programming, one row at a time). -/

/-- Inner cells of the next DP row: `left` is the freshly computed cell to the
left, `row` is the previous row aligned so its head is the diagonal value. -/
def levCells (y : Char) : Nat → List Char → List Nat → List Nat
  | _, [], _ => []
  | _, _ :: _, [] => []
  | _, _ :: _, [_] => []
  | left, x :: xs, diag :: up :: rest =>
      let cell := min (left + 1) (min (up + 1) (if x == y then diag else diag + 1))
      cell :: levCells y cell xs (up :: rest)

/-- Next DP row for target character `y`, given the previous row. -/
def levNextRow (xs : List Char) (row : List Nat) (y : Char) : List Nat :=
  match row with
  | [] => []
  | r0 :: _ => (r0 + 1) :: levCells y (r0 + 1) xs row

/-- Levenshtein edit distance between two strings (the `distance` function of
`fastest-levenshtein`). -/
def levenshtein (s t : String) : Nat :=
  let xs := s.data
  (t.data.foldl (levNextRow xs) (List.range (xs.length + 1))).getLastD 0

/-- `GOAL_SIMILARITY_THRESHOLD` in the source (`0.7`). -/
def GOAL_SIMILARITY_THRESHOLD : ℚ := 7 / 10

/-- `calculateSimilarity`: normalized edit-distance similarity of two strings,
computed on the lower-cased, trimmed inputs; `1` when both are empty. -/
def calculateSimilarity (str1 str2 : String) : ℚ :=
  let s1 := strTrim (strLower str1)
  let s2 := strTrim (strLower str2)
  let maxLen := max s1.length s2.length
  if maxLen = 0 then 1
  else 1 - (levenshtein s1 s2 : ℚ) / (maxLen : ℚ)

/-- The per-goal test of `createGoal`'s dedup loop:
`similarity >= GOAL_SIMILARITY_THRESHOLD`. -/
def isSimilarTitle (title : String) (g : Goal) : Bool :=
  GOAL_SIMILARITY_THRESHOLD ≤ calculateSimilarity title g.title

/-- The steps `createGoal` inserts for a fresh goal: 1-indexed `order`
(stored as text), `isCompleted := false`, `isUserDefined` per step. -/
def mkGoalSteps (goalId nextStepId : Nat) (steps : List StepInput) : List GoalStep :=
  steps.enum.map (fun p =>
    { id := nextStepId + p.1, goalId := goalId, description := p.2.description,
      order := toString (p.1 + 1), isCompleted := false,
      isUserDefined := p.2.isUserDefined })

/-- The resource rows `createGoal` inserts: grouped per step index, attached to
that step's id (indices beyond the step list match no step and are dropped). -/
def mkGoalResources (nextStepId : Nat) (steps : List StepInput)
    (resources : List ResourceInput) : List GoalResource :=
  (List.range steps.length).flatMap (fun i =>
    (resources.filter (fun r => r.stepIndex == i)).map
      (fun r => { stepId := nextStepId + i, title := r.title, url := r.url }))

/-- `financeService.createGoal`.  Fuzzy-dedups against every existing goal of
the owner (first hit wins, returning `(existing id, deduplicated := true)` and
writing nothing); otherwise inserts the goal, its steps and any payload
resources in one transaction.  `targetAmount`/`currentAmount` reproduce the
JS truthiness of `data.targetAmount ? v : null` and `data.currentAmount ? v : 0`
(for `currentAmount` a falsy `0` and the default `0` coincide). -/
def createGoal (db : DB) (userId title description : String)
    (targetAmount currentAmount : Option Int) (steps : List StepInput)
    (resources : List ResourceInput) : DB × Nat × Bool :=
  let existingGoals := db.goals.filter (fun g => g.userId == userId)
  match existingGoals.find? (isSimilarTitle title) with
  | some g => (db, g.id, true)
  | none =>
      let goalId := db.nextGoalId
      let newGoal : Goal :=
        { id := goalId, userId := userId, title := title,
          description := description,
          targetAmount := targetAmount.bind (fun v => if v == 0 then none else some v),
          currentAmount := currentAmount.getD 0,
          status := "active" }
      ({ db with
           goals := db.goals ++ [newGoal],
           goalSteps := db.goalSteps ++ mkGoalSteps goalId db.nextStepId steps,
           goalResources := db.goalResources ++ mkGoalResources db.nextStepId steps resources,
           nextGoalId := goalId + 1,
           nextStepId := db.nextStepId + steps.length },
       goalId, false)

/-! ## getFinancialHistory -/

/-- Stable insertion: place `x` before the first element not below it. -/
def insertLe (le : α → α → Bool) (x : α) : List α → List α
  | [] => [x]
  | y :: ys => if le x y then x :: y :: ys else y :: insertLe le x ys

/-- Stable insertion sort (models SQL `ORDER BY` / JS `Array.sort` on the keys
in play, which are totally ordered; ties keep insertion order). -/
def sortLe (le : α → α → Bool) : List α → List α
  | [] => []
  | x :: xs => insertLe le x (sortLe le xs)

/-- Comparison used to sort history rows by effective date. -/
def dateLe (a b : HistoryRow) : Bool := a.effectiveDate ≤ b.effectiveDate

/-- First-occurrence deduplication with an accumulator of already-seen
elements (the iteration order of a JS `Set`). -/
def uniqueKeepAux (seen : List Nat) : List Nat → List Nat
  | [] => []
  | x :: xs =>
      if seen.contains x then uniqueKeepAux seen xs
      else x :: uniqueKeepAux (x :: seen) xs

/-- First-occurrence deduplication (the iteration order of a JS `Set`). -/
def uniqueKeep (l : List Nat) : List Nat := uniqueKeepAux [] l

/-- The owner's history rows (inner join against the main table to filter by
`userId`), ordered by effective date as the SQL query returns them. -/
def ownedHistory (t : AccountTable) (userId : String) : List HistoryRow :=
  sortLe dateLe (t.history.filter (fun h =>
    match t.rows.find? (fun a => a.id == h.accountId) with
    | some a => a.userId == userId
    | none => false))

/-- One element of the time series `getFinancialHistory` returns. -/
structure HistoryEntry where
  date : Timestamp
  assets : Int
  debts : Int
  netWorth : Int
deriving Repr, DecidableEq

/-- Total over all account ids appearing in `hist` of the account's last
history entry (in list order) with effective date `≤ d`; accounts with no such
entry contribute nothing (`hist` is the date-ordered history, so "last" is the
most recent). -/
def accountTotalAt (hist : List HistoryRow) (d : Timestamp) : Int :=
  (uniqueKeep (hist.map (·.accountId))).foldl (fun s i =>
    match (hist.filter (fun h => h.accountId == i && h.effectiveDate ≤ d)).getLast? with
    | some h => s + h.value
    | none => s) 0

/-- `financeService.getFinancialHistory`: forward-fill reconstruction of the
owner's `{date, assets, debts, netWorth}` time series over the unique effective
dates of their history. -/
def getFinancialHistory (db : DB) (userId : String) : List HistoryEntry :=
  let allAssetHistory := ownedHistory db.assets userId
  let allDebtHistory := ownedHistory db.debts userId
  let sortedDates := sortLe (fun a b : Nat => a ≤ b)
    (uniqueKeep ((allAssetHistory ++ allDebtHistory).map (·.effectiveDate)))
  sortedDates.map (fun d =>
    let currentAssets := accountTotalAt allAssetHistory d
    let currentDebts := accountTotalAt allDebtHistory d
    { date := d, assets := currentAssets, debts := currentDebts,
      netWorth := currentAssets - currentDebts })

/-! ## Resource curation: `curateResources` guardrails -/

/-- A filtered search candidate presented to the curation LLM. -/
structure Candidate where
  title : String
  url : String
  description : String
  publisher : String
  credibilityScore : ℚ
deriving Repr, DecidableEq

/-- A resource the curation LLM returns. -/
structure CuratedResource where
  title : String
  url : String
  publisher : String
  resourceType : String
  credibilityScore : ℚ
deriving Repr, DecidableEq

/-- The shape of the curation LLM's JSON response (also the function's
return shape). -/
structure CurationResponse where
  resources : List CuratedResource
  insufficientSources : Bool
  suggestedConstraint : Option String
deriving Repr, DecidableEq

/-- `curateResources` (curation module): the LLM call is an oracle whose parsed
response is the `parsed` argument (`none` when no JSON object could be
extracted, which the source turns into a thrown `Error`).  The code-enforced
guardrails: every returned URL must exactly equal a candidate URL (offenders
are dropped), and `insufficientSources` is forced true when fewer than 5
resources survive. -/
def curateResources (candidates : List Candidate)
    (parsed : Option CurationResponse) : Except String CurationResponse :=
  match parsed with
  | none => .error "Failed to extract JSON from LLM curation response"
  | some p =>
      let candidateUrls := candidates.map (·.url)
      let validResources := p.resources.filter (fun r => candidateUrls.contains r.url)
      .ok { resources := validResources,
            insufficientSources := p.insufficientSources || validResources.length < 5,
            suggestedConstraint := p.suggestedConstraint }

/-! ## Intent extraction: `extractIntentSpec` -/

/-- The fields of the intent-extraction LLM's parsed JSON that the source
reads; each is optional because the JSON may omit it. -/
structure ParsedIntent where
  userJob : Option String
  constraints : Option (List (String × String))
  resourceTypesNeeded : Option (List String)
  queryTerms : Option (List String)
deriving Repr, DecidableEq

/-- The `IntentSpec` the service builds.  `userJob` is optional here because
the source copies `parsed.userJob` through without a default, so it can be
absent at runtime; `constraints` is modelled as an association list. -/
structure IntentSpec where
  topic : String
  userJob : Option String
  constraints : List (String × String)
  resourceTypesNeeded : List String
  queryTerms : List String
deriving Repr, DecidableEq

/-- `extractIntentSpec` (intent module): a response from which no JSON object
can be extracted (`none`) throws; otherwise the spec is built with
`topic := stepDescription` and the source's fallback defaults
(`constraints || {}`, `resourceTypesNeeded || ['guide']`, `queryTerms || []`);
`goalContext` only feeds the prompt. -/
def extractIntentSpec (stepDescription goalContext : String)
    (parsed : Option ParsedIntent) : Except String IntentSpec :=
  match parsed with
  | none => .error "Failed to extract JSON from LLM response"
  | some p =>
      .ok { topic := stepDescription,
            userJob := p.userJob,
            constraints := p.constraints.getD [],
            resourceTypesNeeded := p.resourceTypesNeeded.getD ["guide"],
            queryTerms := p.queryTerms.getD [] }

/-! ## `runSerialized`: the per-key promise queue

A queued operation is a state transformer that either succeeds with a value or
rejects with an error (a rejecting operation may still have performed writes
before rejecting, so it returns a state in either case).

`runChain` mirrors the promise combinators of `runSerialized` for the queue of
one key: each enqueued operation is attached to the previous tail promise as
`prev.catch(() => {}).then(fn)` — `promiseCatch` converts any rejection of the
tail into success (so `fn` always runs), `promiseThen` runs `fn` only when its
upstream promise is fulfilled — and the caller is returned exactly
`currentTask`, the promise of its own `fn`.  `runSeq` is plain sequential
execution of the queue. -/

/-- A queued operation: state in, state out plus fulfillment or rejection. -/
abbrev Op (σ ε α : Type) := σ → σ × Except ε α

/-- `.catch(() => {})`: any rejection of the upstream promise is swallowed. -/
def promiseCatch (prev : Except ε Unit) : Except ε Unit :=
  match prev with
  | .ok _ => .ok ()
  | .error _ => .ok ()

/-- `.then(fn)`: run `fn` when the upstream promise fulfilled, otherwise
propagate the upstream rejection without running `fn`. -/
def promiseThen (prev : Except ε Unit) (op : Op σ ε α) (st : σ) :
    σ × Except ε α :=
  match prev with
  | .ok _ => op st
  | .error e => (st, .error e)

/-- The completion signal (`signalDone`) of an operation's promise. -/
def signalOf (res : Except ε α) : Except ε Unit :=
  match res with
  | .ok _ => .ok ()
  | .error e => .error e

/-- The queue of one serialization key, as `runSerialized` chains it: `prev`
is the completion status of the promise currently stored in the lock map.
Returns the final state and, in order, the result each caller receives. -/
def runChain (prev : Except ε Unit) (st : σ) :
    List (Op σ ε α) → σ × List (Except ε α)
  | [] => (st, [])
  | op :: rest =>
      let r := promiseThen (promiseCatch prev) op st
      let rs := runChain (signalOf r.2) r.1 rest
      (rs.1, r.2 :: rs.2)

/-- Plain sequential execution of a queue of operations. -/
def runSeq (st : σ) : List (Op σ ε α) → σ × List (Except ε α)
  | [] => (st, [])
  | op :: rest =>
      let r := op st
      let rs := runSeq r.1 rest
      (rs.1, r.2 :: rs.2)

/-- The state after sequentially executing a prefix of the queue. -/
def stateAfter (st : σ) (ops : List (Op σ ε α)) : σ := (runSeq st ops).1

/-- `upsertAsset` as a queued operation of its serialization key
`asset:userId:normalizedName` (it never rejects). -/
def upsertAssetOp (userId ty name : String) (value : Int)
    (effectiveDate : Timestamp) (source : String) (isActive : Bool)
    (now : Timestamp) : Op DB String Nat :=
  fun db =>
    let r := upsertAsset db userId ty name value effectiveDate source isActive now
    (r.1, .ok r.2)

/-! ## Invariants of the account tables -/

/-- Stored names are trimmed (inserts store `name.trim`, merges store
`newName.trim`). -/
def NamesTrimmed (t : AccountTable) : Prop :=
  ∀ a ∈ t.rows, strTrim a.name = a.name

/-- At most one record per `(ownerId, lower(name), type)` — the key the
upsert/merge lookups probe. -/
def UniqueAccountKey (t : AccountTable) : Prop :=
  ∀ a ∈ t.rows, ∀ b ∈ t.rows,
    a.userId = b.userId → strLower a.name = strLower b.name → a.type = b.type → a = b

/-- The spec's invariant: at most one active record per
`(ownerId, lowercased-trimmed name, type)`. -/
def UniqueActiveKey (t : AccountTable) : Prop :=
  ∀ a ∈ t.rows, ∀ b ∈ t.rows,
    a.isActive = true → b.isActive = true → a.userId = b.userId →
    strLower (strTrim a.name) = strLower (strTrim b.name) → a.type = b.type → a = b

/-- Row ids are below the table's id sequence. -/
def IdsBounded (t : AccountTable) : Prop :=
  ∀ a ∈ t.rows, a.id < t.nextId

instance (t : AccountTable) : Decidable (NamesTrimmed t) := by
  unfold NamesTrimmed; infer_instance

instance (t : AccountTable) : Decidable (UniqueAccountKey t) := by
  unfold UniqueAccountKey; infer_instance

instance (t : AccountTable) : Decidable (UniqueActiveKey t) := by
  unfold UniqueActiveKey; infer_instance

instance (t : AccountTable) : Decidable (IdsBounded t) := by
  unfold IdsBounded; infer_instance

/-- Row ids are pairwise distinct (the table's primary key). -/
def IdsNodup (t : AccountTable) : Prop :=
  (t.rows.map (·.id)).Nodup

instance (t : AccountTable) : Decidable (IdsNodup t) := by
  unfold IdsNodup; infer_instance

/-! ## Concrete fixtures used by witnesses -/

/-- A stored checking-account asset: value 500 effective on day 20. -/
def assetW : Account :=
  { id := 1, userId := "u1", type := "checking", name := "Chase Checking",
    value := 500, effectiveDate := 20, updatedDate := 20,
    source := "user_input", isActive := true }

/-- A stored credit-card debt: value 100 effective on day 30. -/
def debtW : Account :=
  { id := 1, userId := "u1", type := "credit_card", name := "Visa",
    value := 100, effectiveDate := 30, updatedDate := 30,
    source := "user_input", isActive := true }

/-- A one-asset, one-debt database. -/
def dbW : DB :=
  { assets := { rows := [assetW], history := [], nextId := 2 },
    debts := { rows := [debtW], history := [], nextId := 2 },
    goals := [], goalSteps := [], goalResources := [],
    nextGoalId := 1, nextStepId := 1 }

/-- The record `mergeAccount` leaves in place of the matched one. -/
def mergedRecord (a : Account) (oldN newN : String) (v : Int) (d now : Timestamp) :
    Account :=
  { a with
    updatedDate := now,
    name := if strLower (strTrim newN) != strLower (strTrim oldN) then strTrim newN else a.name,
    value := if a.effectiveDate ≤ d then v else a.value,
    effectiveDate := if a.effectiveDate ≤ d then d else a.effectiveDate }

/-- An existing, already completed goal of the fixture owner. -/
def goalW : Goal :=
  { id := 1, userId := "u1", title := "Buy a House",
    description := "Save for a home purchase", targetAmount := some 50000,
    currentAmount := 0, status := "completed" }

/-- A database holding only `goalW`. -/
def dbGoalW : DB :=
  { assets := { rows := [], history := [], nextId := 1 },
    debts := { rows := [], history := [], nextId := 1 },
    goals := [goalW], goalSteps := [], goalResources := [],
    nextGoalId := 2, nextStepId := 1 }

/-- The spec-side meaning of one account's forward-filled contribution at
date `d`: either `v` is the value of a history row of the account with maximal
effective date `≤ d`, or the account has no row on or before `d` and `v = 0`. -/
def LatestContribution (hist : List HistoryRow) (i : Nat) (d : Timestamp)
    (v : Int) : Prop :=
  (∃ h, h ∈ hist ∧ h.accountId = i ∧ h.effectiveDate ≤ d ∧ h.value = v ∧
    ∀ h', h' ∈ hist → h'.accountId = i → h'.effectiveDate ≤ d →
      h'.effectiveDate ≤ h.effectiveDate) ∨
  ((∀ h, h ∈ hist → h.accountId = i → ¬ h.effectiveDate ≤ d) ∧ v = 0)

/-- A second asset of the fixture owner. -/
def asset2W : Account :=
  { id := 2, userId := "u1", type := "savings", name := "Ally Savings",
    value := 300, effectiveDate := 10, updatedDate := 10,
    source := "user_input", isActive := true }

/-- A database with recorded balance history: asset 1 at (day 5, 450) and
(day 20, 500), asset 2 at (day 10, 300), debt 1 at (day 20, 100). -/
def dbH : DB :=
  { assets := { rows := [assetW, asset2W],
                history := [⟨1, 500, 20, "user_input"⟩, ⟨2, 300, 10, "user_input"⟩,
                            ⟨1, 450, 5, "user_input"⟩],
                nextId := 3 },
    debts := { rows := [debtW], history := [⟨1, 100, 20, "user_input"⟩], nextId := 2 },
    goals := [], goalSteps := [], goalResources := [],
    nextGoalId := 1, nextStepId := 1 }

/-- A queued operation that writes (increments the state) and then rejects. -/
def opFail : Op Nat String Nat := fun n => (n + 1, .error "boom")

/-- A queued operation that doubles the state and fulfills with the state it
saw. -/
def opDouble : Op Nat String Nat := fun n => (n * 2, .ok n)

/-! ## Lookup and upsert lemmas -/

lemma matchesKey_iff {u ty n : String} {a : Account} :
    matchesKey u ty n a = true ↔
      a.userId = u ∧ strLower a.name = strLower (strTrim n) ∧ a.type = ty := by
  simp [matchesKey, Bool.and_eq_true, and_assoc]

lemma uniqueActiveKey_of (t : AccountTable) (htrim : NamesTrimmed t)
    (huniq : UniqueAccountKey t) : UniqueActiveKey t := by
  intro a ha b hb _ _ hu hn ht
  exact huniq a ha b hb hu (by rw [← htrim a ha, ← htrim b hb]; exact hn) ht

lemma find?_eq_some_of_unique {α : Type} {p : α → Bool} {l : List α} {a : α}
    (ha : a ∈ l) (hpa : p a = true) (huniq : ∀ x ∈ l, p x = true → x = a) :
    l.find? p = some a := by
  induction l with
  | nil => cases ha
  | cons x xs ih =>
      by_cases hx : p x = true
      · have hxa : x = a := huniq x (List.mem_cons_self x xs) hx
        rw [List.find?_cons_of_pos _ hx, hxa]
      · rw [List.find?_cons_of_neg _ (by simpa using hx)]
        rcases List.mem_cons.mp ha with h | h
        · exact absurd (h ▸ hpa) hx
        · exact ih h (fun y hy => huniq y (List.mem_cons_of_mem _ hy))

/-- With the key-uniqueness invariant, the drizzle lookup finds exactly the
matching record. -/
lemma find?_matchesKey_eq_some {t : AccountTable} {u ty n : String} {a : Account}
    (huniq : UniqueAccountKey t) (ha : a ∈ t.rows)
    (haU : a.userId = u) (haN : strLower a.name = strLower (strTrim n)) (haT : a.type = ty) :
    t.rows.find? (matchesKey u ty n) = some a := by
  refine find?_eq_some_of_unique ha (matchesKey_iff.mpr ⟨haU, haN, haT⟩) ?_
  intro x hx hpx
  obtain ⟨h1, h2, h3⟩ := matchesKey_iff.mp hpx
  exact huniq x hx a ha (h1.trans haU.symm) (h2.trans haN.symm) (h3.trans haT.symm)

/-- Backfill case of the shared upsert body: an incoming effective date strictly
older than the matched record's leaves the rows untouched and only appends the
history row. -/
lemma upsertAccount_backfill {t : AccountTable} {u ty n : String} {a : Account}
    (v : Int) (d : Timestamp) (src : String) (act : Bool) (now : Timestamp)
    (huniq : UniqueAccountKey t) (ha : a ∈ t.rows)
    (haU : a.userId = u) (haN : strLower a.name = strLower (strTrim n)) (haT : a.type = ty)
    (hd : d < a.effectiveDate) :
    upsertAccount t u ty n v d src act now =
      ({ t with history := t.history ++ [⟨a.id, v, d, src⟩] }, a.id) := by
  unfold upsertAccount
  rw [find?_matchesKey_eq_some huniq ha haU haN haT]
  simp only [if_neg (Nat.not_le.mpr hd)]

/-- C1: for an existing asset (resp. debt) record with effective date `D2` and
value `V2`, upserting the same `(ownerId, case-and-whitespace-insensitive
name, type)` with an effective date `D1 < D2` leaves the main table unchanged
(in particular the record's value, effective date, source and `isActive` stay
at their current state) and appends exactly the one history row
`(D1, V1, source)` for that record, returning its id. -/
theorem upsert_backfill_keeps_current_record
    (db : DB) (u tyA tyD na nd : String) (a b : Account) (v1 w1 : Int)
    (d1 e1 : Timestamp) (srcA srcD : String) (actA actD : Bool)
    (nowA nowD : Timestamp)
    (hAuniq : UniqueAccountKey db.assets) (hDuniq : UniqueAccountKey db.debts)
    (ha : a ∈ db.assets.rows) (haU : a.userId = u)
    (haN : strLower a.name = strLower (strTrim na)) (haT : a.type = tyA)
    (hb : b ∈ db.debts.rows) (hbU : b.userId = u)
    (hbN : strLower b.name = strLower (strTrim nd)) (hbT : b.type = tyD)
    (hd1 : d1 < a.effectiveDate) (he1 : e1 < b.effectiveDate) :
    upsertAsset db u tyA na v1 d1 srcA actA nowA =
      ({ db with assets :=
           { db.assets with history := db.assets.history ++ [⟨a.id, v1, d1, srcA⟩] } },
       a.id) ∧
    upsertDebt db u tyD nd w1 e1 srcD actD nowD =
      ({ db with debts :=
           { db.debts with history := db.debts.history ++ [⟨b.id, w1, e1, srcD⟩] } },
       b.id) := by
  constructor
  · unfold upsertAsset
    rw [upsertAccount_backfill v1 d1 srcA actA nowA hAuniq ha haU haN haT hd1]
  · unfold upsertDebt
    rw [upsertAccount_backfill w1 e1 srcD actD nowD hDuniq hb hbU hbN hbT he1]

/-- Witness for C1 at a concrete input: a backfill (day 10 < day 20 for the
asset, day 25 < day 30 for the debt) leaves the main rows alone and appends
one history row each. -/
theorem upsert_backfill_keeps_current_record_witness :
    upsertAsset dbW "u1" "checking" " chase checking " 450 10 "user_input" true 99 =
      ({ dbW with assets :=
           { dbW.assets with history := dbW.assets.history ++ [⟨assetW.id, 450, 10, "user_input"⟩] } },
       assetW.id) ∧
    upsertDebt dbW "u1" "credit_card" "visa" 90 25 "user_input" true 99 =
      ({ dbW with debts :=
           { dbW.debts with history := dbW.debts.history ++ [⟨debtW.id, 90, 25, "user_input"⟩] } },
       debtW.id) :=
  upsert_backfill_keeps_current_record dbW "u1" "checking" "credit_card"
    " chase checking " "visa" assetW debtW 450 90 10 25 "user_input" "user_input"
    true true 99 99 (by decide) (by decide) (by decide) (by decide) (by decide)
    (by decide) (by decide) (by decide) (by decide) (by decide) (by decide)
    (by decide)

/-- The found branch of the shared upsert body, fully characterized. -/
lemma upsertAccount_found {t : AccountTable} {u ty n : String} {a : Account}
    (v : Int) (d : Timestamp) (src : String) (act : Bool) (now : Timestamp)
    (huniq : UniqueAccountKey t) (ha : a ∈ t.rows)
    (haU : a.userId = u) (haN : strLower a.name = strLower (strTrim n)) (haT : a.type = ty) :
    upsertAccount t u ty n v d src act now =
      ({ t with
           rows :=
             if a.effectiveDate ≤ d then
               t.rows.map (fun r =>
                 if r.id == a.id then
                   { r with value := v, effectiveDate := d, updatedDate := now,
                            source := src, isActive := act }
                 else r)
             else t.rows,
           history := t.history ++ [⟨a.id, v, d, src⟩] }, a.id) := by
  unfold upsertAccount
  rw [find?_matchesKey_eq_some huniq ha haU haN haT]

/-- The in-place update of the found branch never touches id, owner, name or
type. -/
lemma updateRow_keeps_key (aid : Nat) (v : Int) (d : Timestamp) (src : String)
    (act : Bool) (now : Timestamp) (r : Account) :
    ((if r.id == aid then
        { r with value := v, effectiveDate := d, updatedDate := now,
                 source := src, isActive := act }
      else r) : Account).id = r.id ∧
    ((if r.id == aid then
        { r with value := v, effectiveDate := d, updatedDate := now,
                 source := src, isActive := act }
      else r) : Account).userId = r.userId ∧
    ((if r.id == aid then
        { r with value := v, effectiveDate := d, updatedDate := now,
                 source := src, isActive := act }
      else r) : Account).name = r.name ∧
    ((if r.id == aid then
        { r with value := v, effectiveDate := d, updatedDate := now,
                 source := src, isActive := act }
      else r) : Account).type = r.type := by
  by_cases h : r.id == aid <;> simp [h]

/-- C2: upserting an account whose name differs from an existing record's only
by case and leading/trailing whitespace updates that record rather than
inserting a second one: the row ids (hence the row count) are unchanged, the
existing record's id is returned, and the invariant of at most one active
record per `(ownerId, lowercased-trimmed name, type)` still holds afterwards
(together with the auxiliary trimmed-names and unique-key invariants). -/
theorem upsert_name_insensitive_dedup
    (db : DB) (u ty name2 : String) (a : Account) (v : Int) (d : Timestamp)
    (src : String) (act : Bool) (now : Timestamp)
    (htrim : NamesTrimmed db.assets) (huniq : UniqueAccountKey db.assets)
    (ha : a ∈ db.assets.rows) (haU : a.userId = u) (haT : a.type = ty)
    (hname : strLower (strTrim name2) = strLower (strTrim a.name)) :
    (upsertAsset db u ty name2 v d src act now).1.assets.rows.map (·.id)
        = db.assets.rows.map (·.id) ∧
    (upsertAsset db u ty name2 v d src act now).1.assets.rows.length
        = db.assets.rows.length ∧
    (upsertAsset db u ty name2 v d src act now).2 = a.id ∧
    NamesTrimmed (upsertAsset db u ty name2 v d src act now).1.assets ∧
    UniqueAccountKey (upsertAsset db u ty name2 v d src act now).1.assets ∧
    UniqueActiveKey (upsertAsset db u ty name2 v d src act now).1.assets := by
  have haN : strLower a.name = strLower (strTrim name2) :=
    (hname.trans (congrArg strLower (htrim a ha))).symm
  have hup := upsertAccount_found (t := db.assets) v d src act now huniq ha haU haN haT
  have hrows : (upsertAsset db u ty name2 v d src act now).1.assets.rows
      = (if a.effectiveDate ≤ d then
           db.assets.rows.map (fun r =>
             if r.id == a.id then
               { r with value := v, effectiveDate := d, updatedDate := now,
                        source := src, isActive := act }
             else r)
         else db.assets.rows) := by
    unfold upsertAsset
    rw [hup]
  have hmem : ∀ x ∈ (upsertAsset db u ty name2 v d src act now).1.assets.rows,
      ∃ r ∈ db.assets.rows, x.userId = r.userId ∧ x.name = r.name ∧
        x.type = r.type ∧ (∀ y, x = y → True) ∧
        (x = r ∨ x = { r with value := v, effectiveDate := d, updatedDate := now,
                              source := src, isActive := act }) := by
    intro x hx
    rw [hrows] at hx
    by_cases hc : a.effectiveDate ≤ d
    · rw [if_pos hc] at hx
      obtain ⟨r, hr, hxr⟩ := List.mem_map.mp hx
      obtain ⟨_, h2, h3, h4⟩ := updateRow_keeps_key a.id v d src act now r
      refine ⟨r, hr, ?_, ?_, ?_, fun _ _ => trivial, ?_⟩
      · rw [← hxr]; exact h2
      · rw [← hxr]; exact h3
      · rw [← hxr]; exact h4
      · rw [← hxr]; by_cases h : r.id == a.id
        · right; simp [h]
        · left; simp [h]
    · rw [if_neg hc] at hx
      exact ⟨x, hx, rfl, rfl, rfl, fun _ _ => trivial, Or.inl rfl⟩
  have hids : (upsertAsset db u ty name2 v d src act now).1.assets.rows.map (·.id)
      = db.assets.rows.map (·.id) := by
    rw [hrows]
    by_cases hc : a.effectiveDate ≤ d
    · rw [if_pos hc, List.map_map]
      have : ((fun x : Account => x.id) ∘ fun r =>
          if r.id == a.id then
            { r with value := v, effectiveDate := d, updatedDate := now,
                     source := src, isActive := act }
          else r) = fun x : Account => x.id := by
        funext r
        exact (updateRow_keeps_key a.id v d src act now r).1
      rw [this]
    · rw [if_neg hc]
  have htrim' : NamesTrimmed (upsertAsset db u ty name2 v d src act now).1.assets := by
    intro x hx
    obtain ⟨r, hr, _, hn, _, _, _⟩ := hmem x hx
    rw [hn]; exact htrim r hr
  have huniq' : UniqueAccountKey (upsertAsset db u ty name2 v d src act now).1.assets := by
    intro x hx y hy hu hn ht
    rw [hrows] at hx hy
    by_cases hc : a.effectiveDate ≤ d
    · rw [if_pos hc] at hx hy
      obtain ⟨rx, hrx, hxeq⟩ := List.mem_map.mp hx
      obtain ⟨ry, hry, hyeq⟩ := List.mem_map.mp hy
      obtain ⟨_, hxu, hxn, hxt⟩ := updateRow_keeps_key a.id v d src act now rx
      obtain ⟨_, hyu, hyn, hyt⟩ := updateRow_keeps_key a.id v d src act now ry
      have : rx = ry := by
        apply huniq rx hrx ry hry
        · rw [← hxu, ← hyu, hxeq, hyeq]; exact hu
        · rw [← congrArg strLower hxn, ← congrArg strLower hyn,
              hxeq, hyeq]; exact hn
        · rw [← hxt, ← hyt, hxeq, hyeq]; exact ht
      rw [← hxeq, ← hyeq, this]
    · rw [if_neg hc] at hx hy
      exact huniq x hx y hy hu hn ht
  refine ⟨hids, ?_, ?_, htrim', huniq', uniqueActiveKey_of _ htrim' huniq'⟩
  · have := congrArg List.length hids
    simpa using this
  · unfold upsertAsset
    rw [hup]

/-- Witness for C2 at a concrete input: upserting `" CHASE checking "` against
the stored `"Chase Checking"` updates in place instead of inserting. -/
theorem upsert_name_insensitive_dedup_witness :
    (upsertAsset dbW "u1" "checking" " CHASE checking " 600 25 "user_input" true 99).1.assets.rows.map (·.id)
        = dbW.assets.rows.map (·.id) ∧
    (upsertAsset dbW "u1" "checking" " CHASE checking " 600 25 "user_input" true 99).1.assets.rows.length
        = dbW.assets.rows.length ∧
    (upsertAsset dbW "u1" "checking" " CHASE checking " 600 25 "user_input" true 99).2 = assetW.id ∧
    NamesTrimmed (upsertAsset dbW "u1" "checking" " CHASE checking " 600 25 "user_input" true 99).1.assets ∧
    UniqueAccountKey (upsertAsset dbW "u1" "checking" " CHASE checking " 600 25 "user_input" true 99).1.assets ∧
    UniqueActiveKey (upsertAsset dbW "u1" "checking" " CHASE checking " 600 25 "user_input" true 99).1.assets :=
  upsert_name_insensitive_dedup dbW "u1" "checking" " CHASE checking " assetW
    600 25 "user_input" true 99 (by decide) (by decide) (by decide) (by decide)
    (by decide) (by decide)

/-! ## Merge lemmas (C4) -/

lemma eq_of_id_eq {t : AccountTable} (hnodup : IdsNodup t) {a r : Account}
    (ha : a ∈ t.rows) (hr : r ∈ t.rows) (h : r.id = a.id) : r = a :=
  List.inj_on_of_nodup_map hnodup hr ha h

/-- Not-found branch of the shared merge body. -/
lemma mergeAccount_not_found {t : AccountTable} {u oldN ty : String}
    (newN : String) (v : Int) (d now : Timestamp)
    (h : ∀ x ∈ t.rows, ¬(x.userId = u ∧ strLower x.name = strLower (strTrim oldN) ∧ x.type = ty)) :
    mergeAccount t u oldN newN ty v d now =
      .error ("No existing account found: " ++ oldN) := by
  unfold mergeAccount
  rw [List.find?_eq_none.mpr (fun x hx hp => h x hx (matchesKey_iff.mp hp))]

/-- Found branch of the shared merge body. -/
lemma mergeAccount_found {t : AccountTable} {u oldN ty : String} {a : Account}
    (newN : String) (v : Int) (d now : Timestamp)
    (huniq : UniqueAccountKey t) (ha : a ∈ t.rows)
    (haU : a.userId = u) (haN : strLower a.name = strLower (strTrim oldN)) (haT : a.type = ty) :
    mergeAccount t u oldN newN ty v d now =
      .ok ({ t with
               rows := t.rows.map (fun r =>
                 if r.id == a.id then
                   { r with
                     updatedDate := now,
                     name := if strLower (strTrim newN) != strLower (strTrim oldN) then strTrim newN else r.name,
                     value := if a.effectiveDate ≤ d then v else r.value,
                     effectiveDate := if a.effectiveDate ≤ d then d else r.effectiveDate }
                 else r),
               history := t.history ++ [⟨a.id, v, d, "user_input"⟩] },
           a.id, (strLower (strTrim newN) != strLower (strTrim oldN))) := by
  unfold mergeAccount
  rw [find?_matchesKey_eq_some huniq ha haU haN haT]

/-- C4: `mergeAsset`/`mergeDebt` fail with the NotFound error when no record
matches `(ownerId, case-insensitive oldName, type)` (the model returns the
error before producing any new state, mirroring the source's `throw` before
any write); when the record exists, the result replaces exactly that record by
one that is renamed only when the new name differs case-insensitively from the
old, takes the incoming value/effective date only when the incoming effective
date is `≥` the existing one, and one history row is appended under the
original record's id. -/
theorem merge_notfound_and_gated_update
    (db : DB) (u oldN newN ty : String) (v : Int) (d now : Timestamp) :
    ((∀ x ∈ db.assets.rows,
        ¬(x.userId = u ∧ strLower x.name = strLower (strTrim oldN) ∧ x.type = ty)) →
      mergeAsset db u oldN newN ty v d now =
        .error ("No existing account found: " ++ oldN)) ∧
    (∀ a : Account, UniqueAccountKey db.assets → IdsNodup db.assets →
        a ∈ db.assets.rows → a.userId = u →
        strLower a.name = strLower (strTrim oldN) → a.type = ty →
      ∃ a' : Account,
        mergeAsset db u oldN newN ty v d now =
          .ok ({ db with assets := { db.assets with
                   rows := db.assets.rows.map (fun r => if r.id = a.id then a' else r),
                   history := db.assets.history ++ [⟨a.id, v, d, "user_input"⟩] } },
               a.id, (strLower (strTrim newN) != strLower (strTrim oldN))) ∧
        a'.id = a.id ∧ a'.userId = a.userId ∧ a'.type = a.type ∧
        a'.isActive = a.isActive ∧ a'.source = a.source ∧
        a'.name = (if strLower (strTrim newN) = strLower (strTrim oldN)
                   then a.name else strTrim newN) ∧
        a'.value = (if a.effectiveDate ≤ d then v else a.value) ∧
        a'.effectiveDate = (if a.effectiveDate ≤ d then d else a.effectiveDate) ∧
        a'.updatedDate = now) ∧
    ((∀ x ∈ db.debts.rows,
        ¬(x.userId = u ∧ strLower x.name = strLower (strTrim oldN) ∧ x.type = ty)) →
      mergeDebt db u oldN newN ty v d now =
        .error ("No existing account found: " ++ oldN)) ∧
    (∀ b : Account, UniqueAccountKey db.debts → IdsNodup db.debts →
        b ∈ db.debts.rows → b.userId = u →
        strLower b.name = strLower (strTrim oldN) → b.type = ty →
      ∃ b' : Account,
        mergeDebt db u oldN newN ty v d now =
          .ok ({ db with debts := { db.debts with
                   rows := db.debts.rows.map (fun r => if r.id = b.id then b' else r),
                   history := db.debts.history ++ [⟨b.id, v, d, "user_input"⟩] } },
               b.id, (strLower (strTrim newN) != strLower (strTrim oldN))) ∧
        b'.id = b.id ∧ b'.userId = b.userId ∧ b'.type = b.type ∧
        b'.isActive = b.isActive ∧ b'.source = b.source ∧
        b'.name = (if strLower (strTrim newN) = strLower (strTrim oldN)
                   then b.name else strTrim newN) ∧
        b'.value = (if b.effectiveDate ≤ d then v else b.value) ∧
        b'.effectiveDate = (if b.effectiveDate ≤ d then d else b.effectiveDate) ∧
        b'.updatedDate = now) := by
  have core : ∀ t : AccountTable, ∀ a : Account, UniqueAccountKey t → IdsNodup t →
      a ∈ t.rows → a.userId = u → strLower a.name = strLower (strTrim oldN) → a.type = ty →
      mergeAccount t u oldN newN ty v d now =
        .ok ({ t with
                 rows := t.rows.map (fun r =>
                   if r.id = a.id then mergedRecord a oldN newN v d now else r),
                 history := t.history ++ [⟨a.id, v, d, "user_input"⟩] },
             a.id, (strLower (strTrim newN) != strLower (strTrim oldN))) := by
    intro t a huniq hnodup ha haU haN haT
    rw [mergeAccount_found newN v d now huniq ha haU haN haT]
    have hmap : t.rows.map (fun r =>
        if r.id == a.id then
          { r with
            updatedDate := now,
            name := if strLower (strTrim newN) != strLower (strTrim oldN) then strTrim newN else r.name,
            value := if a.effectiveDate ≤ d then v else r.value,
            effectiveDate := if a.effectiveDate ≤ d then d else r.effectiveDate }
        else r)
        = t.rows.map (fun r => if r.id = a.id then mergedRecord a oldN newN v d now else r) := by
      apply List.map_congr_left
      intro r hr
      by_cases hid : r.id = a.id
      · have hra : r = a := eq_of_id_eq hnodup ha hr hid
        rw [if_pos (by simpa using hid), if_pos hid, hra]
        rfl
      · rw [if_neg (by simpa using hid), if_neg hid]
    rw [hmap]
  have hrecord : ∀ a : Account,
      (mergedRecord a oldN newN v d now).id = a.id ∧
      (mergedRecord a oldN newN v d now).userId = a.userId ∧
      (mergedRecord a oldN newN v d now).type = a.type ∧
      (mergedRecord a oldN newN v d now).isActive = a.isActive ∧
      (mergedRecord a oldN newN v d now).source = a.source ∧
      (mergedRecord a oldN newN v d now).name
        = (if strLower (strTrim newN) = strLower (strTrim oldN) then a.name else strTrim newN) ∧
      (mergedRecord a oldN newN v d now).value = (if a.effectiveDate ≤ d then v else a.value) ∧
      (mergedRecord a oldN newN v d now).effectiveDate
        = (if a.effectiveDate ≤ d then d else a.effectiveDate) ∧
      (mergedRecord a oldN newN v d now).updatedDate = now := by
    intro a
    refine ⟨rfl, rfl, rfl, rfl, rfl, ?_, rfl, rfl, rfl⟩
    unfold mergedRecord
    by_cases h : strLower (strTrim newN) = strLower (strTrim oldN)
    · simp [h]
    · simp [h]
  refine ⟨?_, ?_, ?_, ?_⟩
  · intro h
    unfold mergeAsset
    rw [mergeAccount_not_found newN v d now h]
    rfl
  · intro a huniq hnodup ha haU haN haT
    refine ⟨mergedRecord a oldN newN v d now, ?_, hrecord a⟩
    unfold mergeAsset
    rw [core db.assets a huniq hnodup ha haU haN haT]
    rfl
  · intro h
    unfold mergeDebt
    rw [mergeAccount_not_found newN v d now h]
    rfl
  · intro b huniq hnodup hb hbU hbN hbT
    refine ⟨mergedRecord b oldN newN v d now, ?_, hrecord b⟩
    unfold mergeDebt
    rw [core db.debts b huniq hnodup hb hbU hbN hbT]
    rfl

/-- Witness for C4 at concrete inputs: a rename-merge of the stored asset
(incoming effective day 25 ≥ stored day 20, so the value moves), and a merge
against an absent name failing with NotFound. -/
theorem merge_notfound_and_gated_update_witness :
    (∃ a' : Account,
        mergeAsset dbW "u1" "Chase Checking" "Chase Premier Checking" "checking" 700 25 99 =
          .ok ({ dbW with assets := { dbW.assets with
                   rows := dbW.assets.rows.map (fun r => if r.id = assetW.id then a' else r),
                   history := dbW.assets.history ++ [⟨assetW.id, 700, 25, "user_input"⟩] } },
               assetW.id,
               (strLower (strTrim "Chase Premier Checking") != strLower (strTrim "Chase Checking"))) ∧
        a'.id = assetW.id ∧ a'.userId = assetW.userId ∧ a'.type = assetW.type ∧
        a'.isActive = assetW.isActive ∧ a'.source = assetW.source ∧
        a'.name = (if strLower (strTrim "Chase Premier Checking") = strLower (strTrim "Chase Checking")
                   then assetW.name else strTrim "Chase Premier Checking") ∧
        a'.value = (if assetW.effectiveDate ≤ 25 then 700 else assetW.value) ∧
        a'.effectiveDate = (if assetW.effectiveDate ≤ 25 then 25 else assetW.effectiveDate) ∧
        a'.updatedDate = 99) ∧
    mergeAsset dbW "u1" "Absent" "New" "checking" 1 1 1 =
      .error ("No existing account found: " ++ "Absent") :=
  ⟨(merge_notfound_and_gated_update dbW "u1" "Chase Checking" "Chase Premier Checking"
        "checking" 700 25 99).2.1 assetW (by decide) (by decide) (by decide)
        (by decide) (by decide) (by decide),
   (merge_notfound_and_gated_update dbW "u1" "Absent" "New" "checking" 1 1 1).1
     (by decide)⟩

/-! ## Goal creation lemmas (C3, C10) -/

/-- The `similarity ≥ 0.7` test, restated as decidable natural arithmetic
(`10·levenshtein ≤ 3·maxLen`, with empty-vs-empty similar by convention). -/
lemma calculateSimilarity_eq (a b : String) :
    calculateSimilarity a b =
      if max (strTrim (strLower a)).length (strTrim (strLower b)).length = 0 then 1
      else 1 - (levenshtein (strTrim (strLower a)) (strTrim (strLower b)) : ℚ) /
        ((max (strTrim (strLower a)).length (strTrim (strLower b)).length : ℕ) : ℚ) := rfl

lemma threshold_le_calculateSimilarity_iff (a b : String) :
    GOAL_SIMILARITY_THRESHOLD ≤ calculateSimilarity a b ↔
      (max (strTrim (strLower a)).length (strTrim (strLower b)).length = 0 ∨
       10 * levenshtein (strTrim (strLower a)) (strTrim (strLower b)) ≤
         3 * max (strTrim (strLower a)).length (strTrim (strLower b)).length) := by
  rw [calculateSimilarity_eq]
  unfold GOAL_SIMILARITY_THRESHOLD
  set s1 := strTrim (strLower a)
  set s2 := strTrim (strLower b)
  set m := max s1.length s2.length with hm
  set d := levenshtein s1 s2 with hd
  by_cases h : m = 0
  · rw [if_pos h]
    simp only [h, true_or, iff_true]
    norm_num
  · have hmpos : (0 : ℚ) < (m : ℚ) := by
      exact_mod_cast Nat.pos_of_ne_zero h
    have step1 : ((7 : ℚ)/10 ≤ 1 - (d : ℚ)/(m : ℚ)) ↔ ((d : ℚ)/(m : ℚ) ≤ 3/10) := by
      constructor <;> intro hh <;> linarith
    have step2 : ((d : ℚ)/(m : ℚ) ≤ 3/10) ↔ ((d : ℚ) * 10 ≤ 3 * (m : ℚ)) :=
      div_le_div_iff₀ hmpos (by norm_num)
    have step3 : ((d : ℚ) * 10 ≤ 3 * (m : ℚ)) ↔ (10 * d ≤ 3 * m) := by
      rw [mul_comm (d : ℚ) 10]
      constructor <;> intro hh <;> exact_mod_cast hh
    rw [if_neg h, step1, step2, step3]
    simp [h]

/-- When some goal of the owner is similar enough, `createGoal` returns an
existing similar goal's id, flags it deduplicated, and writes nothing. -/
lemma createGoal_dedup_of_exists (db : DB) (u title desc : String)
    (ta ca : Option Int) (steps : List StepInput) (res : List ResourceInput)
    (hex : ∃ g, g ∈ db.goals ∧ g.userId = u ∧
        GOAL_SIMILARITY_THRESHOLD ≤ calculateSimilarity title g.title) :
    ∃ g', g' ∈ db.goals ∧ g'.userId = u ∧
      GOAL_SIMILARITY_THRESHOLD ≤ calculateSimilarity title g'.title ∧
      createGoal db u title desc ta ca steps res = (db, g'.id, true) := by
  obtain ⟨g, hg, hgu, hgs⟩ := hex
  have hmem : g ∈ db.goals.filter (fun g => g.userId == u) :=
    List.mem_filter.mpr ⟨hg, by simp [hgu]⟩
  have hsome : ((db.goals.filter (fun g => g.userId == u)).find?
      (isSimilarTitle title)).isSome := by
    cases hfind : (db.goals.filter (fun g => g.userId == u)).find?
        (isSimilarTitle title) with
    | none =>
        have hnot := List.find?_eq_none.mp hfind g hmem
        exact absurd (by simpa [isSimilarTitle] using hgs) hnot
    | some x => rfl
  obtain ⟨g', hfind⟩ := Option.isSome_iff_exists.mp hsome
  have hg'mem := List.mem_filter.mp (List.mem_of_find?_eq_some hfind)
  have hg'sim : isSimilarTitle title g' = true := List.find?_some hfind
  refine ⟨g', hg'mem.1, by simpa using hg'mem.2,
    by simpa [isSimilarTitle] using hg'sim, ?_⟩
  unfold createGoal
  simp only [hfind]

/-- C3: `createGoal` compares the new title against every existing goal of the
owner via the normalized edit-distance similarity; if one reaches the 0.7
threshold it returns that goal's id flagged `deduplicated = true` and writes
nothing (the returned state is the input state); otherwise it inserts the goal
and its steps (with 1-indexed textual `order`) in one transaction and returns
the fresh id flagged `deduplicated = false`. -/
theorem createGoal_dedup_or_insert
    (db : DB) (u title desc : String) (ta ca : Option Int)
    (steps : List StepInput) (res : List ResourceInput) :
    ((∃ g, g ∈ db.goals ∧ g.userId = u ∧
        GOAL_SIMILARITY_THRESHOLD ≤ calculateSimilarity title g.title) →
      ∃ g', g' ∈ db.goals ∧ g'.userId = u ∧
        GOAL_SIMILARITY_THRESHOLD ≤ calculateSimilarity title g'.title ∧
        createGoal db u title desc ta ca steps res = (db, g'.id, true)) ∧
    ((∀ g, g ∈ db.goals → g.userId = u →
        calculateSimilarity title g.title < GOAL_SIMILARITY_THRESHOLD) →
      createGoal db u title desc ta ca steps res =
        ({ db with
             goals := db.goals ++
               [{ id := db.nextGoalId, userId := u, title := title,
                  description := desc,
                  targetAmount := ta.bind (fun v => if v == 0 then none else some v),
                  currentAmount := ca.getD 0, status := "active" }],
             goalSteps := db.goalSteps ++ mkGoalSteps db.nextGoalId db.nextStepId steps,
             goalResources := db.goalResources ++ mkGoalResources db.nextStepId steps res,
             nextGoalId := db.nextGoalId + 1,
             nextStepId := db.nextStepId + steps.length },
         db.nextGoalId, false)) ∧
    (mkGoalSteps db.nextGoalId db.nextStepId steps).map (·.order)
      = (List.range steps.length).map (fun i => toString (i + 1)) := by
  refine ⟨createGoal_dedup_of_exists db u title desc ta ca steps res, ?_, ?_⟩
  · intro hall
    have hnone : (db.goals.filter (fun g => g.userId == u)).find?
        (isSimilarTitle title) = none := by
      refine List.find?_eq_none.mpr (fun x hx => ?_)
      have hmem := List.mem_filter.mp hx
      have hlt := hall x hmem.1 (by simpa using hmem.2)
      simp only [isSimilarTitle, decide_eq_true_eq]
      exact not_le.mpr hlt
    unfold createGoal
    simp only [hnone]
  · unfold mkGoalSteps
    rw [List.map_map]
    have hfst : ((fun s : GoalStep => s.order) ∘ fun p : Nat × StepInput =>
        ({ id := db.nextStepId + p.1, goalId := db.nextGoalId,
           description := p.2.description, order := toString (p.1 + 1),
           isCompleted := false, isUserDefined := p.2.isUserDefined } : GoalStep))
        = (fun i : Nat => toString (i + 1)) ∘ Prod.fst := by
      funext p
      rfl
    rw [hfst, List.enum_eq_zip_range, ← List.map_map]
    rw [List.map_fst_zip _ _ (by simp)]

set_option maxRecDepth 4000 in
/-- Witness for C3 at concrete inputs: `"Buy a house"` against the stored
`"Buy a House"` dedups with no write; `"Save for Retirement"` creates a fresh
goal with its one step. -/
theorem createGoal_dedup_or_insert_witness :
    (∃ g', g' ∈ dbGoalW.goals ∧ g'.userId = "u1" ∧
        GOAL_SIMILARITY_THRESHOLD ≤ calculateSimilarity "Buy a house" g'.title ∧
        createGoal dbGoalW "u1" "Buy a house" "A home" none none [] []
          = (dbGoalW, g'.id, true)) ∧
    createGoal dbGoalW "u1" "Save for Retirement" "Retire comfortably"
        (some 100000) none [⟨"Open an IRA", true⟩] [] =
      ({ dbGoalW with
           goals := dbGoalW.goals ++
             [{ id := dbGoalW.nextGoalId, userId := "u1",
                title := "Save for Retirement", description := "Retire comfortably",
                targetAmount := (some (100000 : Int)).bind
                  (fun v => if v == 0 then none else some v),
                currentAmount := (none : Option Int).getD 0, status := "active" }],
           goalSteps := dbGoalW.goalSteps ++
             mkGoalSteps dbGoalW.nextGoalId dbGoalW.nextStepId [⟨"Open an IRA", true⟩],
           goalResources := dbGoalW.goalResources ++
             mkGoalResources dbGoalW.nextStepId [⟨"Open an IRA", true⟩] [],
           nextGoalId := dbGoalW.nextGoalId + 1,
           nextStepId := dbGoalW.nextStepId + ([⟨"Open an IRA", true⟩] : List StepInput).length },
       dbGoalW.nextGoalId, false) :=
  ⟨(createGoal_dedup_or_insert dbGoalW "u1" "Buy a house" "A home" none none [] []).1
      ⟨goalW, by decide, rfl,
       (threshold_le_calculateSimilarity_iff "Buy a house" goalW.title).mpr (by decide)⟩,
   (createGoal_dedup_or_insert dbGoalW "u1" "Save for Retirement" "Retire comfortably"
      (some 100000) none [⟨"Open an IRA", true⟩] []).2.1
      (fun g hg _ => by
        have hgw : g = goalW := by simpa [dbGoalW] using hg
        subst hgw
        exact not_le.mp (fun hc => absurd
          ((threshold_le_calculateSimilarity_iff "Save for Retirement" goalW.title).mp hc)
          (by decide)))⟩

/-- C10: the dedup scan of `createGoal` reads every goal of the owner with no
status filter, so a goal whose status is `completed` or `archived` still causes
a later similar-titled creation to return an existing similar goal's id with
`deduplicated = true` and to write nothing. -/
theorem createGoal_dedups_against_closed_goals
    (db : DB) (u title desc : String) (ta ca : Option Int)
    (steps : List StepInput) (res : List ResourceInput) (g : Goal)
    (hg : g ∈ db.goals) (hgu : g.userId = u)
    (hstatus : g.status = "completed" ∨ g.status = "archived")
    (hsim : GOAL_SIMILARITY_THRESHOLD ≤ calculateSimilarity title g.title) :
    ∃ g', g' ∈ db.goals ∧ g'.userId = u ∧
      GOAL_SIMILARITY_THRESHOLD ≤ calculateSimilarity title g'.title ∧
      createGoal db u title desc ta ca steps res = (db, g'.id, true) :=
  createGoal_dedup_of_exists db u title desc ta ca steps res ⟨g, hg, hgu, hsim⟩

/-- Witness for C10 at a concrete input: `goalW` is `completed`, yet a
similar-titled creation still dedups against it. -/
theorem createGoal_dedups_against_closed_goals_witness :
    ∃ g', g' ∈ dbGoalW.goals ∧ g'.userId = "u1" ∧
      GOAL_SIMILARITY_THRESHOLD ≤ calculateSimilarity "buy a house" g'.title ∧
      createGoal dbGoalW "u1" "buy a house" "Again" none none
        [⟨"Tour homes", false⟩] [] = (dbGoalW, g'.id, true) :=
  createGoal_dedups_against_closed_goals dbGoalW "u1" "buy a house" "Again"
    none none [⟨"Tour homes", false⟩] [] goalW (by decide) rfl (Or.inl rfl)
    ((threshold_le_calculateSimilarity_iff "buy a house" goalW.title).mpr (by decide))

/-! ## Curation guardrail (C6) and intent-extraction contract (C7) -/

/-- C6: in `curateResources`, every resource of the LLM response whose URL is
not exactly equal to some candidate URL is dropped, all other resources are
kept (in order: the surviving list is a sublist of the response's), and if
fewer than 5 resources survive then `insufficientSources` is true in the
returned response regardless of what the model reported. -/
theorem curateResources_guardrail (candidates : List Candidate)
    (p : CurationResponse) :
    ∃ out, curateResources candidates (some p) = .ok out ∧
      out.resources.Sublist p.resources ∧
      (∀ r, r ∈ p.resources →
        (r ∈ out.resources ↔ ∃ c ∈ candidates, c.url = r.url)) ∧
      (out.resources.length < 5 → out.insufficientSources = true) := by
  refine ⟨_, rfl, List.filter_sublist _, ?_, ?_⟩
  · intro r hr
    constructor
    · intro hout
      have hmem := List.mem_filter.mp hout
      have : r.url ∈ candidates.map (·.url) := by
        simpa [List.elem_iff] using hmem.2
      obtain ⟨c, hc, hcu⟩ := List.mem_map.mp this
      exact ⟨c, hc, hcu⟩
    · intro ⟨c, hc, hcu⟩
      refine List.mem_filter.mpr ⟨hr, ?_⟩
      simp only [List.elem_iff]
      exact List.mem_map.mpr ⟨c, hc, hcu⟩
  · intro hlen
    simp only [Bool.or_eq_true, decide_eq_true_eq]
    exact Or.inr hlen

/-- Witness for C6 at a concrete input: the model returns five candidate URLs
plus one hallucinated URL; the hallucinated one is dropped, the rest survive,
and (with only 4 surviving here) `insufficientSources` would be forced. -/
theorem curateResources_guardrail_witness :
    ∃ out,
      curateResources
        [⟨"IRS guide", "https://irs.gov/a", "d", "irs.gov", 1⟩,
         ⟨"CFPB tool", "https://cfpb.gov/b", "d", "cfpb.gov", 1⟩,
         ⟨"NerdWallet", "https://nerdwallet.com/c", "d", "nerdwallet.com", (4:ℚ)/5⟩]
        (some { resources :=
                  [⟨"IRS guide", "https://irs.gov/a", "irs.gov", "guide", 1⟩,
                   ⟨"Made up", "https://example.com/fake", "example.com", "guide", 1⟩,
                   ⟨"CFPB tool", "https://cfpb.gov/b", "cfpb.gov", "calculator", 1⟩],
                insufficientSources := false,
                suggestedConstraint := none }) = .ok out ∧
      out.resources.Sublist
        [⟨"IRS guide", "https://irs.gov/a", "irs.gov", "guide", 1⟩,
         ⟨"Made up", "https://example.com/fake", "example.com", "guide", 1⟩,
         ⟨"CFPB tool", "https://cfpb.gov/b", "cfpb.gov", "calculator", 1⟩] ∧
      (∀ r, r ∈ ([⟨"IRS guide", "https://irs.gov/a", "irs.gov", "guide", 1⟩,
                  ⟨"Made up", "https://example.com/fake", "example.com", "guide", 1⟩,
                  ⟨"CFPB tool", "https://cfpb.gov/b", "cfpb.gov", "calculator", 1⟩] :
                    List CuratedResource) →
        (r ∈ out.resources ↔ ∃ c ∈
          ([⟨"IRS guide", "https://irs.gov/a", "d", "irs.gov", 1⟩,
            ⟨"CFPB tool", "https://cfpb.gov/b", "d", "cfpb.gov", 1⟩,
            ⟨"NerdWallet", "https://nerdwallet.com/c", "d", "nerdwallet.com", (4:ℚ)/5⟩] :
              List Candidate), c.url = r.url)) ∧
      (out.resources.length < 5 → out.insufficientSources = true) :=
  curateResources_guardrail _ _

/-- Counterexample to C7 as stated: an LLM response that parses as JSON but is
missing every field of the intent spec is accepted without error — the stage
builds a spec from defaults (`constraints = {}`,
`resourceTypesNeeded = ["guide"]`, `queryTerms = []`, `userJob` absent)
instead of raising. -/
theorem extractIntentSpec_accepts_missing_fields :
    extractIntentSpec "Research mortgage lenders and compare rates" "Buy a House"
        (some { userJob := none, constraints := none,
                resourceTypesNeeded := none, queryTerms := none }) =
      .ok { topic := "Research mortgage lenders and compare rates",
            userJob := none, constraints := [],
            resourceTypesNeeded := ["guide"], queryTerms := [] } := rfl

/-- C7 (amended): in `extractIntentSpec` only a response from which no JSON
object can be extracted (or that fails to parse) is a hard error for the step;
a parsed response with missing fields is accepted, with
`constraints`/`resourceTypesNeeded`/`queryTerms` falling back to
`{}`/`["guide"]`/`[]` and `userJob` copied through even when absent. -/
theorem extractIntentSpec_contract (s g : String) :
    extractIntentSpec s g none = .error "Failed to extract JSON from LLM response" ∧
    ∀ p : ParsedIntent, extractIntentSpec s g (some p) =
      .ok { topic := s, userJob := p.userJob,
            constraints := p.constraints.getD [],
            resourceTypesNeeded := p.resourceTypesNeeded.getD ["guide"],
            queryTerms := p.queryTerms.getD [] } :=
  ⟨rfl, fun _ => rfl⟩

/-! ## The promise queue (C8, C9) -/

/-- The `.catch(() => {})` attached to the stored tail promise makes every
queued operation run exactly as in plain sequential execution, whatever the
incoming completion status. -/
lemma runChain_eq_runSeq {σ ε α : Type} (ops : List (Op σ ε α)) :
    ∀ (prev : Except ε Unit) (st : σ), runChain prev st ops = runSeq st ops := by
  induction ops with
  | nil => intro prev st; rfl
  | cons op rest ih =>
      intro prev st
      have hcatch : promiseThen (promiseCatch prev) op st = op st := by
        cases prev <;> rfl
      show (let r := promiseThen (promiseCatch prev) op st
            let rs := runChain (signalOf r.2) r.1 rest
            (rs.1, r.2 :: rs.2)) =
           (let r := op st
            let rs := runSeq r.1 rest
            (rs.1, r.2 :: rs.2))
      rw [hcatch]
      simp only [ih]

lemma runSeq_length {σ ε α : Type} (ops : List (Op σ ε α)) :
    ∀ st : σ, (runSeq st ops).2.length = ops.length := by
  induction ops with
  | nil => intro st; rfl
  | cons op rest ih =>
      intro st
      show ((runSeq (op st).1 rest).1, (op st).2 :: (runSeq (op st).1 rest).2).2.length
        = rest.length + 1
      simp [ih]

lemma runSeq_result {σ ε α : Type} (ops : List (Op σ ε α)) :
    ∀ (st : σ) (i : Nat) (h : i < ops.length),
      (runSeq st ops).2[i]? = some ((ops[i]) (stateAfter st (ops.take i))).2 := by
  induction ops with
  | nil => intro st i h; cases h
  | cons op rest ih =>
      intro st i h
      have step : (runSeq st (op :: rest)).2 = (op st).2 :: (runSeq (op st).1 rest).2 := by
        show (let r := op st
              let rs := runSeq r.1 rest
              (rs.1, r.2 :: rs.2)).2 = _
        rfl
      cases i with
      | zero =>
          rw [step]
          simp [stateAfter, runSeq]
      | succ j =>
          have hj : j < rest.length := Nat.lt_of_succ_lt_succ h
          rw [step, List.getElem?_cons_succ, ih (op st).1 j hj]
          simp [stateAfter, runSeq, List.take_succ_cons]

/-- C9: a failed (rejected) operation in a serialization key's queue does not
prevent later operations on the same key from running: the chained execution
(with its `.catch`-protected tail) equals plain sequential execution whatever
the incoming tail status, every enqueued operation contributes a result, and
the i-th caller receives exactly its own operation's outcome on the state left
by its predecessors. -/
theorem runSerialized_queue_isolation {σ ε α : Type}
    (ops : List (Op σ ε α)) (prev : Except ε Unit) (st : σ) :
    runChain prev st ops = runSeq st ops ∧
    (runChain prev st ops).2.length = ops.length ∧
    (∀ i (h : i < ops.length),
      (runChain prev st ops).2[i]? = some ((ops[i]) (stateAfter st (ops.take i))).2) := by
  refine ⟨runChain_eq_runSeq ops prev st, ?_, ?_⟩
  · rw [runChain_eq_runSeq ops prev st]
    exact runSeq_length ops st
  · intro i h
    rw [runChain_eq_runSeq ops prev st]
    exact runSeq_result ops st i h

/-- Witness for C9 at a concrete input: a queue whose first operation rejects
(after writing) — chained behind an already-rejected tail promise — still runs
the second operation, which receives its own result. -/
theorem runSerialized_queue_isolation_witness :
    runChain (Except.error "stale") (0 : Nat) [opFail, opDouble]
        = runSeq (0 : Nat) [opFail, opDouble] ∧
    (runChain (Except.error "stale") (0 : Nat) [opFail, opDouble]).2.length = 2 ∧
    (runChain (Except.error "stale") (0 : Nat) [opFail, opDouble]).2[1]?
      = some (([opFail, opDouble].get ⟨1, by decide⟩)
          (stateAfter (0 : Nat) ([opFail, opDouble].take 1))).2 :=
  ⟨(runSerialized_queue_isolation [opFail, opDouble] (Except.error "stale") 0).1,
   (runSerialized_queue_isolation [opFail, opDouble] (Except.error "stale") 0).2.1,
   (runSerialized_queue_isolation [opFail, opDouble] (Except.error "stale") 0).2.2
     1 (by decide)⟩

lemma find?_append_none {α : Type} {p : α → Bool} {l1 : List α} (l2 : List α)
    (h : l1.find? p = none) : (l1 ++ l2).find? p = l2.find? p := by
  induction l1 with
  | nil => rfl
  | cons x xs ih =>
      cases hpx : p x with
      | true => rw [List.find?_cons_of_pos _ hpx] at h; cases h
      | false =>
          rw [List.find?_cons_of_neg _ (by simp [hpx])] at h
          rw [List.cons_append, List.find?_cons_of_neg _ (by simp [hpx])]
          exact ih h

/-- Insert branch of the shared upsert body. -/
lemma upsertAccount_insert {t : AccountTable} {u ty n : String}
    (v : Int) (d : Timestamp) (src : String) (act : Bool) (now : Timestamp)
    (hfind : t.rows.find? (matchesKey u ty n) = none) :
    upsertAccount t u ty n v d src act now =
      ({ rows := t.rows ++
           [{ id := t.nextId, userId := u, type := ty, name := strTrim n,
              value := v, effectiveDate := d, updatedDate := now,
              source := src, isActive := act }],
         history := t.history ++ [⟨t.nextId, v, d, src⟩],
         nextId := t.nextId + 1 }, t.nextId) := by
  unfold upsertAccount
  rw [hfind]

/-- Found branch of the shared upsert body, keyed on the `find?` result. -/
lemma upsertAccount_of_find?_some {t : AccountTable} {u ty n : String} {a : Account}
    (v : Int) (d : Timestamp) (src : String) (act : Bool) (now : Timestamp)
    (hfind : t.rows.find? (matchesKey u ty n) = some a) :
    upsertAccount t u ty n v d src act now =
      ({ t with
           rows :=
             if a.effectiveDate ≤ d then
               t.rows.map (fun r =>
                 if r.id == a.id then
                   { r with value := v, effectiveDate := d, updatedDate := now,
                            source := src, isActive := act }
                 else r)
             else t.rows,
           history := t.history ++ [⟨a.id, v, d, src⟩] }, a.id) := by
  unfold upsertAccount
  rw [hfind]

/-- C8: two upserts for the same `(owner, case/whitespace-insensitive name,
type)` key with different effective dates, executed through the serialization
queue (in either argument order, behind any pending tail promise), produce on
a table with no record for that key exactly one new main record — whose value
and effective date are the later date's — and exactly two history rows for it,
with both callers receiving that record's id. -/
theorem concurrent_upserts_one_record_two_history
    (db : DB) (u ty n1 n2 : String) (v1 v2 : Int) (d1 d2 : Timestamp)
    (s1 s2 : String) (b1 b2 : Bool) (t1 t2 : Timestamp)
    (prev : Except String Unit)
    (hnames : strLower (strTrim n1) = strLower (strTrim n2))
    (hdates : d1 ≠ d2)
    (hnone : ∀ a ∈ db.assets.rows,
      ¬(a.userId = u ∧ strLower a.name = strLower (strTrim n1) ∧ a.type = ty))
    (hids : IdsBounded db.assets) :
    ∃ rec : Account,
      (runChain prev db [upsertAssetOp u ty n1 v1 d1 s1 b1 t1,
                         upsertAssetOp u ty n2 v2 d2 s2 b2 t2]).1.assets.rows
        = db.assets.rows ++ [rec] ∧
      rec.id = db.assets.nextId ∧ rec.userId = u ∧ rec.type = ty ∧
      rec.name = strTrim n1 ∧
      rec.value = (if d1 < d2 then v2 else v1) ∧
      rec.effectiveDate = max d1 d2 ∧
      (runChain prev db [upsertAssetOp u ty n1 v1 d1 s1 b1 t1,
                         upsertAssetOp u ty n2 v2 d2 s2 b2 t2]).1.assets.history
        = db.assets.history ++
            [⟨db.assets.nextId, v1, d1, s1⟩, ⟨db.assets.nextId, v2, d2, s2⟩] ∧
      (runChain prev db [upsertAssetOp u ty n1 v1 d1 s1 b1 t1,
                         upsertAssetOp u ty n2 v2 d2 s2 b2 t2]).2
        = [.ok db.assets.nextId, .ok db.assets.nextId] ∧
      ((runChain prev db [upsertAssetOp u ty n1 v1 d1 s1 b1 t1,
                          upsertAssetOp u ty n2 v2 d2 s2 b2 t2]).1.assets.rows.filter
          (matchesKey u ty n2)).length = 1 := by
  have hkey2 : ∀ x : Account, matchesKey u ty n2 x = matchesKey u ty n1 x := by
    intro x
    unfold matchesKey
    rw [← hnames]
  have hfind1 : db.assets.rows.find? (matchesKey u ty n1) = none :=
    List.find?_eq_none.mpr (fun x hx hp => hnone x hx (matchesKey_iff.mp hp))
  have hfind2a : db.assets.rows.find? (matchesKey u ty n2) = none := by
    rw [show matchesKey u ty n2 = matchesKey u ty n1 from funext hkey2]
    exact hfind1
  have h1 := @upsertAccount_insert db.assets u ty n1 v1 d1 s1 b1 t1 hfind1
  have hrec1match : matchesKey u ty n2
      ({ id := db.assets.nextId, userId := u, type := ty, name := strTrim n1,
         value := v1, effectiveDate := d1, updatedDate := t1,
         source := s1, isActive := b1 } : Account) = true := by
    rw [hkey2]
    exact matchesKey_iff.mpr ⟨rfl, rfl, rfl⟩
  have hfind2 : (db.assets.rows ++
      [({ id := db.assets.nextId, userId := u, type := ty, name := strTrim n1,
          value := v1, effectiveDate := d1, updatedDate := t1,
          source := s1, isActive := b1 } : Account)]).find? (matchesKey u ty n2)
      = some { id := db.assets.nextId, userId := u, type := ty, name := strTrim n1,
               value := v1, effectiveDate := d1, updatedDate := t1,
               source := s1, isActive := b1 } := by
    rw [find?_append_none _ hfind2a, List.find?_cons_of_pos _ hrec1match]
  have hop1 : upsertAssetOp u ty n1 v1 d1 s1 b1 t1 db =
      ({ db with assets :=
           { rows := db.assets.rows ++
               [{ id := db.assets.nextId, userId := u, type := ty, name := strTrim n1,
                  value := v1, effectiveDate := d1, updatedDate := t1,
                  source := s1, isActive := b1 }],
             history := db.assets.history ++ [⟨db.assets.nextId, v1, d1, s1⟩],
             nextId := db.assets.nextId + 1 } }, .ok db.assets.nextId) := by
    simp only [upsertAssetOp, upsertAsset, h1]
  have hmapold : ∀ (va : Int) (da : Timestamp) (sa : String) (ba : Bool) (ta : Timestamp),
      db.assets.rows.map (fun r =>
        if r.id == db.assets.nextId then
          { r with value := va, effectiveDate := da, updatedDate := ta,
                   source := sa, isActive := ba }
        else r) = db.assets.rows := by
    intro va da sa ba ta
    have : ∀ r ∈ db.assets.rows,
        (if r.id == db.assets.nextId then
          ({ r with value := va, effectiveDate := da, updatedDate := ta,
                    source := sa, isActive := ba } : Account)
         else r) = r := by
      intro r hr
      rw [if_neg (by simp [Nat.ne_of_lt (hids r hr)])]
    rw [List.map_congr_left this]
    simp
  have h2 := @upsertAccount_of_find?_some
    { rows := db.assets.rows ++
        [{ id := db.assets.nextId, userId := u, type := ty, name := strTrim n1,
           value := v1, effectiveDate := d1, updatedDate := t1,
           source := s1, isActive := b1 }],
      history := db.assets.history ++ [⟨db.assets.nextId, v1, d1, s1⟩],
      nextId := db.assets.nextId + 1 }
    u ty n2 _ v2 d2 s2 b2 t2 hfind2
  by_cases hc : d1 ≤ d2
  · have hlt : d1 < d2 := lt_of_le_of_ne hc hdates
    refine ⟨{ id := db.assets.nextId, userId := u, type := ty, name := strTrim n1,
              value := v2, effectiveDate := d2, updatedDate := t2,
              source := s2, isActive := b2 }, ?_⟩
    have h2' : upsertAccount
        { rows := db.assets.rows ++
            [{ id := db.assets.nextId, userId := u, type := ty, name := strTrim n1,
               value := v1, effectiveDate := d1, updatedDate := t1,
               source := s1, isActive := b1 }],
          history := db.assets.history ++ [⟨db.assets.nextId, v1, d1, s1⟩],
          nextId := db.assets.nextId + 1 } u ty n2 v2 d2 s2 b2 t2 =
        ({ rows := db.assets.rows ++
             [{ id := db.assets.nextId, userId := u, type := ty, name := strTrim n1,
                value := v2, effectiveDate := d2, updatedDate := t2,
                source := s2, isActive := b2 }],
           history := (db.assets.history ++ [⟨db.assets.nextId, v1, d1, s1⟩]) ++
             [⟨db.assets.nextId, v2, d2, s2⟩],
           nextId := db.assets.nextId + 1 }, db.assets.nextId) := by
      rw [h2]
      simp only [if_pos hc, List.map_append, hmapold]
      simp
    have hop2 : upsertAssetOp u ty n2 v2 d2 s2 b2 t2
        ({ db with assets :=
             { rows := db.assets.rows ++
                 [{ id := db.assets.nextId, userId := u, type := ty, name := strTrim n1,
                    value := v1, effectiveDate := d1, updatedDate := t1,
                    source := s1, isActive := b1 }],
               history := db.assets.history ++ [⟨db.assets.nextId, v1, d1, s1⟩],
               nextId := db.assets.nextId + 1 } }) =
        ({ db with assets :=
             { rows := db.assets.rows ++
                 [{ id := db.assets.nextId, userId := u, type := ty, name := strTrim n1,
                    value := v2, effectiveDate := d2, updatedDate := t2,
                    source := s2, isActive := b2 }],
               history := (db.assets.history ++ [⟨db.assets.nextId, v1, d1, s1⟩]) ++
                 [⟨db.assets.nextId, v2, d2, s2⟩],
               nextId := db.assets.nextId + 1 } }, .ok db.assets.nextId) := by
      simp only [upsertAssetOp, upsertAsset, h2']
    have hrun : runChain prev db [upsertAssetOp u ty n1 v1 d1 s1 b1 t1,
        upsertAssetOp u ty n2 v2 d2 s2 b2 t2] =
        ({ db with assets :=
             { rows := db.assets.rows ++
                 [{ id := db.assets.nextId, userId := u, type := ty, name := strTrim n1,
                    value := v2, effectiveDate := d2, updatedDate := t2,
                    source := s2, isActive := b2 }],
               history := (db.assets.history ++ [⟨db.assets.nextId, v1, d1, s1⟩]) ++
                 [⟨db.assets.nextId, v2, d2, s2⟩],
               nextId := db.assets.nextId + 1 } },
         [.ok db.assets.nextId, .ok db.assets.nextId]) := by
      rw [runChain_eq_runSeq]
      simp [runSeq, hop1, hop2]
    rw [hrun]
    refine ⟨rfl, rfl, rfl, rfl, rfl, ?_, ?_, by simp, rfl, ?_⟩
    · simp [if_pos hlt]
    · simp [Nat.max_eq_right hc]
    · simp only [List.filter_append]
      rw [List.filter_eq_nil_iff.mpr (fun x hx => by
        rw [hkey2]
        exact fun hp => hnone x hx (matchesKey_iff.mp hp))]
      have hm2 : matchesKey u ty n2
          ({ id := db.assets.nextId, userId := u, type := ty, name := strTrim n1,
             value := v2, effectiveDate := d2, updatedDate := t2,
             source := s2, isActive := b2 } : Account) = true := by
        rw [hkey2]
        exact matchesKey_iff.mpr ⟨rfl, rfl, rfl⟩
      simp [hm2]
  · have hlt : d2 < d1 := Nat.lt_of_not_le hc
    refine ⟨{ id := db.assets.nextId, userId := u, type := ty, name := strTrim n1,
              value := v1, effectiveDate := d1, updatedDate := t1,
              source := s1, isActive := b1 }, ?_⟩
    have h2' : upsertAccount
        { rows := db.assets.rows ++
            [{ id := db.assets.nextId, userId := u, type := ty, name := strTrim n1,
               value := v1, effectiveDate := d1, updatedDate := t1,
               source := s1, isActive := b1 }],
          history := db.assets.history ++ [⟨db.assets.nextId, v1, d1, s1⟩],
          nextId := db.assets.nextId + 1 } u ty n2 v2 d2 s2 b2 t2 =
        ({ rows := db.assets.rows ++
             [{ id := db.assets.nextId, userId := u, type := ty, name := strTrim n1,
                value := v1, effectiveDate := d1, updatedDate := t1,
                source := s1, isActive := b1 }],
           history := (db.assets.history ++ [⟨db.assets.nextId, v1, d1, s1⟩]) ++
             [⟨db.assets.nextId, v2, d2, s2⟩],
           nextId := db.assets.nextId + 1 }, db.assets.nextId) := by
      rw [h2]
      simp only [if_neg hc]
    have hop2 : upsertAssetOp u ty n2 v2 d2 s2 b2 t2
        ({ db with assets :=
             { rows := db.assets.rows ++
                 [{ id := db.assets.nextId, userId := u, type := ty, name := strTrim n1,
                    value := v1, effectiveDate := d1, updatedDate := t1,
                    source := s1, isActive := b1 }],
               history := db.assets.history ++ [⟨db.assets.nextId, v1, d1, s1⟩],
               nextId := db.assets.nextId + 1 } }) =
        ({ db with assets :=
             { rows := db.assets.rows ++
                 [{ id := db.assets.nextId, userId := u, type := ty, name := strTrim n1,
                    value := v1, effectiveDate := d1, updatedDate := t1,
                    source := s1, isActive := b1 }],
               history := (db.assets.history ++ [⟨db.assets.nextId, v1, d1, s1⟩]) ++
                 [⟨db.assets.nextId, v2, d2, s2⟩],
               nextId := db.assets.nextId + 1 } }, .ok db.assets.nextId) := by
      simp only [upsertAssetOp, upsertAsset, h2']
    have hrun : runChain prev db [upsertAssetOp u ty n1 v1 d1 s1 b1 t1,
        upsertAssetOp u ty n2 v2 d2 s2 b2 t2] =
        ({ db with assets :=
             { rows := db.assets.rows ++
                 [{ id := db.assets.nextId, userId := u, type := ty, name := strTrim n1,
                    value := v1, effectiveDate := d1, updatedDate := t1,
                    source := s1, isActive := b1 }],
               history := (db.assets.history ++ [⟨db.assets.nextId, v1, d1, s1⟩]) ++
                 [⟨db.assets.nextId, v2, d2, s2⟩],
               nextId := db.assets.nextId + 1 } },
         [.ok db.assets.nextId, .ok db.assets.nextId]) := by
      rw [runChain_eq_runSeq]
      simp [runSeq, hop1, hop2]
    rw [hrun]
    refine ⟨rfl, rfl, rfl, rfl, rfl, ?_, ?_, by simp, rfl, ?_⟩
    · simp [if_neg (Nat.not_lt.mpr (Nat.le_of_lt hlt))]
    · simp [Nat.max_eq_left (Nat.le_of_lt hlt)]
    · simp only [List.filter_append]
      rw [List.filter_eq_nil_iff.mpr (fun x hx => by
        rw [hkey2]
        exact fun hp => hnone x hx (matchesKey_iff.mp hp))]
      simp [hrec1match]

/-- Witness for C8 at a concrete input: two concurrent upserts of a brokerage
account unknown to `dbW` (effective days 40 then 35, names differing in case
and whitespace), behind a pending tail promise. -/
theorem concurrent_upserts_one_record_two_history_witness :
    ∃ rec : Account,
      (runChain (Except.ok ()) dbW
          [upsertAssetOp "u1" "investment" "Fidelity Brokerage" 1000 40 "user_input" true 50,
           upsertAssetOp "u1" "investment" " fidelity brokerage " 900 35 "user_input" true 51]).1.assets.rows
        = dbW.assets.rows ++ [rec] ∧
      rec.id = dbW.assets.nextId ∧ rec.userId = "u1" ∧ rec.type = "investment" ∧
      rec.name = strTrim "Fidelity Brokerage" ∧
      rec.value = (if (40 : Nat) < 35 then 900 else 1000) ∧
      rec.effectiveDate = max 40 35 ∧
      (runChain (Except.ok ()) dbW
          [upsertAssetOp "u1" "investment" "Fidelity Brokerage" 1000 40 "user_input" true 50,
           upsertAssetOp "u1" "investment" " fidelity brokerage " 900 35 "user_input" true 51]).1.assets.history
        = dbW.assets.history ++
            [⟨dbW.assets.nextId, 1000, 40, "user_input"⟩,
             ⟨dbW.assets.nextId, 900, 35, "user_input"⟩] ∧
      (runChain (Except.ok ()) dbW
          [upsertAssetOp "u1" "investment" "Fidelity Brokerage" 1000 40 "user_input" true 50,
           upsertAssetOp "u1" "investment" " fidelity brokerage " 900 35 "user_input" true 51]).2
        = [.ok dbW.assets.nextId, .ok dbW.assets.nextId] ∧
      ((runChain (Except.ok ()) dbW
          [upsertAssetOp "u1" "investment" "Fidelity Brokerage" 1000 40 "user_input" true 50,
           upsertAssetOp "u1" "investment" " fidelity brokerage " 900 35 "user_input" true 51]).1.assets.rows.filter
          (matchesKey "u1" "investment" " fidelity brokerage ")).length = 1 :=
  concurrent_upserts_one_record_two_history dbW "u1" "investment"
    "Fidelity Brokerage" " fidelity brokerage " 1000 900 40 35 "user_input"
    "user_input" true true 50 51 (Except.ok ()) (by decide) (by decide)
    (by decide) (by decide)

/-! ## History reconstruction (C5) -/

lemma mem_insertLe {α : Type} (le : α → α → Bool) (x : α) :
    ∀ (l : List α) (z : α), z ∈ insertLe le x l ↔ z = x ∨ z ∈ l := by
  intro l
  induction l with
  | nil => intro z; simp [insertLe]
  | cons y ys ih =>
      intro z
      by_cases h : le x y = true
      · simp only [insertLe, if_pos h, List.mem_cons]
      · simp only [insertLe, if_neg h, List.mem_cons, ih]
        tauto

lemma insertLe_perm {α : Type} (le : α → α → Bool) (x : α) :
    ∀ l : List α, List.Perm (insertLe le x l) (x :: l) := by
  intro l
  induction l with
  | nil => exact List.Perm.refl _
  | cons y ys ih =>
      by_cases h : le x y = true
      · simp only [insertLe, if_pos h]
        exact List.Perm.refl _
      · simp only [insertLe, if_neg h]
        exact (List.Perm.cons y ih).trans (List.Perm.swap x y ys)

lemma sortLe_perm {α : Type} (le : α → α → Bool) :
    ∀ l : List α, List.Perm (sortLe le l) l := by
  intro l
  induction l with
  | nil => exact List.Perm.refl _
  | cons x xs ih =>
      simp only [sortLe]
      exact (insertLe_perm le x (sortLe le xs)).trans (List.Perm.cons x ih)

lemma pairwise_insertLe {α : Type} {le : α → α → Bool}
    (htot : ∀ a b, le a b = true ∨ le b a = true)
    (htrans : ∀ a b c, le a b = true → le b c = true → le a c = true)
    (x : α) : ∀ {l : List α}, l.Pairwise (fun a b => le a b = true) →
      (insertLe le x l).Pairwise (fun a b => le a b = true) := by
  intro l
  induction l with
  | nil =>
      intro _
      simp [insertLe]
  | cons y ys ih =>
      intro hl
      by_cases h : le x y = true
      · simp only [insertLe, if_pos h]
        refine List.Pairwise.cons ?_ hl
        intro z hz
        rcases List.mem_cons.mp hz with rfl | hzys
        · exact h
        · exact htrans x y z h (List.rel_of_pairwise_cons hl hzys)
      · simp only [insertLe, if_neg h]
        have hyx : le y x = true := (htot x y).resolve_left h
        refine List.Pairwise.cons ?_ (ih (List.Pairwise.of_cons hl))
        intro z hz
        rcases (mem_insertLe le x ys z).mp hz with rfl | hzys
        · exact hyx
        · exact List.rel_of_pairwise_cons hl hzys

lemma sortLe_pairwise {α : Type} {le : α → α → Bool}
    (htot : ∀ a b, le a b = true ∨ le b a = true)
    (htrans : ∀ a b c, le a b = true → le b c = true → le a c = true) :
    ∀ l : List α, (sortLe le l).Pairwise (fun a b => le a b = true) := by
  intro l
  induction l with
  | nil => simp [sortLe]
  | cons x xs ih =>
      simp only [sortLe]
      exact pairwise_insertLe htot htrans x ih

lemma mem_uniqueKeepAux : ∀ (l seen : List Nat) (y : Nat),
    y ∈ uniqueKeepAux seen l ↔ y ∈ l ∧ ¬ y ∈ seen := by
  intro l
  induction l with
  | nil =>
      intro seen y
      simp [uniqueKeepAux]
  | cons x xs ih =>
      intro seen y
      by_cases h : seen.contains x = true
      · have hx : x ∈ seen := by simpa using h
        simp only [uniqueKeepAux, if_pos h, ih, List.mem_cons]
        constructor
        · rintro ⟨hyxs, hyn⟩
          exact ⟨Or.inr hyxs, hyn⟩
        · rintro ⟨hy, hyn⟩
          rcases hy with rfl | hy'
          · exact absurd hx hyn
          · exact ⟨hy', hyn⟩
      · have hx : ¬ x ∈ seen := by simpa using h
        simp only [uniqueKeepAux, if_neg h, List.mem_cons, ih]
        constructor
        · rintro (rfl | ⟨hyxs, hyn⟩)
          · exact ⟨Or.inl rfl, hx⟩
          · exact ⟨Or.inr hyxs, fun hc => hyn (Or.inr hc)⟩
        · rintro ⟨rfl | hyxs, hyn⟩
          · exact Or.inl rfl
          · by_cases hyx : y = x
            · exact Or.inl hyx
            · exact Or.inr ⟨hyxs, fun hc => hc.elim hyx hyn⟩

lemma nodup_uniqueKeepAux : ∀ (l seen : List Nat), (uniqueKeepAux seen l).Nodup := by
  intro l
  induction l with
  | nil =>
      intro seen
      simp [uniqueKeepAux]
  | cons x xs ih =>
      intro seen
      by_cases h : seen.contains x = true
      · simp only [uniqueKeepAux, if_pos h]
        exact ih seen
      · simp only [uniqueKeepAux, if_neg h]
        refine List.nodup_cons.mpr ⟨?_, ih (x :: seen)⟩
        intro hc
        exact ((mem_uniqueKeepAux xs (x :: seen) x).mp hc).2 (List.mem_cons_self x seen)

lemma mem_uniqueKeep (l : List Nat) (y : Nat) : y ∈ uniqueKeep l ↔ y ∈ l := by
  unfold uniqueKeep
  rw [mem_uniqueKeepAux]
  simp

lemma nodup_uniqueKeep (l : List Nat) : (uniqueKeep l).Nodup :=
  nodup_uniqueKeepAux l []

lemma getLast?_mem {α : Type} : ∀ {l : List α} {z : α}, l.getLast? = some z → z ∈ l := by
  intro l
  induction l with
  | nil =>
      intro z h
      cases h
  | cons x xs ih =>
      intro z h
      cases xs with
      | nil =>
          rw [List.getLast?_singleton] at h
          obtain rfl : x = z := by injection h
          exact List.mem_cons_self _ _
      | cons y ys =>
          rw [List.getLast?_cons_cons] at h
          exact List.mem_cons_of_mem _ (ih h)

lemma le_getLast_of_sorted : ∀ {l : List HistoryRow},
    l.Pairwise (fun a b => a.effectiveDate ≤ b.effectiveDate) →
    ∀ {z : HistoryRow}, l.getLast? = some z →
    ∀ x ∈ l, x.effectiveDate ≤ z.effectiveDate := by
  intro l
  induction l with
  | nil =>
      intro _ z h
      cases h
  | cons a as ih =>
      intro hp z hz x hx
      cases as with
      | nil =>
          rw [List.getLast?_singleton] at hz
          obtain rfl : a = z := by injection hz
          rcases List.mem_cons.mp hx with rfl | hx'
          · exact Nat.le_refl _
          · cases hx'
      | cons b bs =>
          rw [List.getLast?_cons_cons] at hz
          rcases List.mem_cons.mp hx with rfl | hx'
          · exact List.rel_of_pairwise_cons hp (getLast?_mem hz)
          · exact ih (List.Pairwise.of_cons hp) hz x hx'

lemma foldl_contrib_eq_sum (hist : List HistoryRow) (d : Timestamp) :
    ∀ (ids : List Nat) (init : Int),
      ids.foldl (fun s i =>
        match (hist.filter (fun h => h.accountId == i && h.effectiveDate ≤ d)).getLast? with
        | some h => s + h.value
        | none => s) init
      = init + (ids.map (fun i =>
          match (hist.filter (fun h => h.accountId == i && h.effectiveDate ≤ d)).getLast? with
          | some h => h.value
          | none => (0 : Int))).sum := by
  intro ids
  induction ids with
  | nil =>
      intro init
      simp
  | cons i is ih =>
      intro init
      rw [List.foldl_cons, List.map_cons, List.sum_cons]
      cases hg : (hist.filter (fun h => h.accountId == i && h.effectiveDate ≤ d)).getLast? with
      | some h =>
          simp only [hg]
          rw [ih]
          ring
      | none =>
          simp only [hg]
          rw [ih]
          ring

lemma ownedHistory_pairwise (t : AccountTable) (u : String) :
    (ownedHistory t u).Pairwise (fun a b => a.effectiveDate ≤ b.effectiveDate) := by
  have htot : ∀ a b : HistoryRow, dateLe a b = true ∨ dateLe b a = true := by
    intro a b
    unfold dateLe
    rcases Nat.le_total a.effectiveDate b.effectiveDate with h | h
    · exact Or.inl (by simpa using h)
    · exact Or.inr (by simpa using h)
  have htrans : ∀ a b c : HistoryRow,
      dateLe a b = true → dateLe b c = true → dateLe a c = true := by
    intro a b c h1 h2
    have h1' : a.effectiveDate ≤ b.effectiveDate := of_decide_eq_true h1
    have h2' : b.effectiveDate ≤ c.effectiveDate := of_decide_eq_true h2
    exact decide_eq_true (Nat.le_trans h1' h2')
  exact (sortLe_pairwise htot htrans _).imp (fun h => by
    simpa [dateLe] using h)

/-- C5: `getFinancialHistory` returns exactly one entry per unique effective
date of the owner's asset/debt history, sorted ascending; each entry's
`assets` is the sum over the accounts appearing in the owner's asset history
of that account's most recent value with effective date `≤` the entry's date
(accounts with no row on or before that date contribute 0), and `netWorth`
equals `assets - debts`. -/
theorem getFinancialHistory_spec (db : DB) (u : String) :
    ((getFinancialHistory db u).map (·.date)).Pairwise (· < ·) ∧
    (∀ d : Timestamp, d ∈ (getFinancialHistory db u).map (·.date) ↔
      ∃ h : HistoryRow,
        (h ∈ ownedHistory db.assets u ∨ h ∈ ownedHistory db.debts u) ∧
        h.effectiveDate = d) ∧
    (∀ e ∈ getFinancialHistory db u,
      e.netWorth = e.assets - e.debts ∧
      ∃ (ids : List Nat) (f : Nat → Int),
        ids.Nodup ∧
        (∀ i : Nat, i ∈ ids ↔ ∃ h, h ∈ ownedHistory db.assets u ∧ h.accountId = i) ∧
        e.assets = (ids.map f).sum ∧
        ∀ i ∈ ids, LatestContribution (ownedHistory db.assets u) i e.date (f i)) := by
  have htotN : ∀ a b : Nat, (decide (a ≤ b)) = true ∨ (decide (b ≤ a)) = true := by
    intro a b
    rcases Nat.le_total a b with h | h
    · exact Or.inl (decide_eq_true h)
    · exact Or.inr (decide_eq_true h)
  have htransN : ∀ a b c : Nat,
      decide (a ≤ b) = true → decide (b ≤ c) = true → decide (a ≤ c) = true := by
    intro a b c h1 h2
    exact decide_eq_true
      (Nat.le_trans (of_decide_eq_true h1) (of_decide_eq_true h2))
  have hgfh : getFinancialHistory db u
      = (sortLe (fun a b : Nat => a ≤ b)
          (uniqueKeep (((ownedHistory db.assets u) ++ (ownedHistory db.debts u)).map
            (·.effectiveDate)))).map
          (fun d => { date := d,
                      assets := accountTotalAt (ownedHistory db.assets u) d,
                      debts := accountTotalAt (ownedHistory db.debts u) d,
                      netWorth := accountTotalAt (ownedHistory db.assets u) d
                        - accountTotalAt (ownedHistory db.debts u) d }) := rfl
  have hmapdate : (getFinancialHistory db u).map (·.date)
      = sortLe (fun a b : Nat => a ≤ b)
          (uniqueKeep (((ownedHistory db.assets u) ++ (ownedHistory db.debts u)).map
            (·.effectiveDate))) := by
    rw [hgfh, List.map_map]
    have : ((fun e : HistoryEntry => e.date) ∘
        (fun d => ({ date := d,
                     assets := accountTotalAt (ownedHistory db.assets u) d,
                     debts := accountTotalAt (ownedHistory db.debts u) d,
                     netWorth := accountTotalAt (ownedHistory db.assets u) d
                       - accountTotalAt (ownedHistory db.debts u) d } : HistoryEntry)))
        = id := funext (fun d => rfl)
    rw [this, List.map_id]
  refine ⟨?_, ?_, ?_⟩
  · rw [hmapdate]
    have hle : (sortLe (fun a b : Nat => a ≤ b)
        (uniqueKeep (((ownedHistory db.assets u) ++ (ownedHistory db.debts u)).map
          (·.effectiveDate)))).Pairwise (· ≤ ·) :=
      (sortLe_pairwise htotN htransN _).imp (fun h => of_decide_eq_true h)
    have hnd : (sortLe (fun a b : Nat => a ≤ b)
        (uniqueKeep (((ownedHistory db.assets u) ++ (ownedHistory db.debts u)).map
          (·.effectiveDate)))).Nodup :=
      ((sortLe_perm _ _).nodup_iff).mpr (nodup_uniqueKeep _)
    exact (hle.and hnd).imp (fun h => Nat.lt_of_le_of_ne h.1 h.2)
  · intro d
    rw [hmapdate, (sortLe_perm _ _).mem_iff, mem_uniqueKeep]
    simp only [List.mem_map, List.mem_append]
  · intro e he
    rw [hgfh] at he
    obtain ⟨d, hd, rfl⟩ := List.mem_map.mp he
    refine ⟨rfl, uniqueKeep ((ownedHistory db.assets u).map (·.accountId)),
      fun i => match ((ownedHistory db.assets u).filter
          (fun h => h.accountId == i && h.effectiveDate ≤ d)).getLast? with
        | some h => h.value
        | none => (0 : Int),
      nodup_uniqueKeep _, ?_, ?_, ?_⟩
    · intro i
      rw [mem_uniqueKeep]
      simp only [List.mem_map]
    · show accountTotalAt (ownedHistory db.assets u) d = _
      unfold accountTotalAt
      rw [foldl_contrib_eq_sum]
      rw [zero_add]
    · intro i hi
      have hpairf : (((ownedHistory db.assets u).filter
          (fun h => h.accountId == i && h.effectiveDate ≤ d))).Pairwise
            (fun a b => a.effectiveDate ≤ b.effectiveDate) :=
        (ownedHistory_pairwise db.assets u).sublist (List.filter_sublist _)
      cases hg : ((ownedHistory db.assets u).filter
          (fun h => h.accountId == i && h.effectiveDate ≤ d)).getLast? with
      | some h =>
          left
          have hmf := List.mem_filter.mp (getLast?_mem hg)
          have hb : (h.accountId == i) = true ∧ decide (h.effectiveDate ≤ d) = true := by
            simpa using hmf.2
          refine ⟨h, hmf.1, by simpa using hb.1, by simpa using hb.2,
            by simp only [hg], ?_⟩
          intro h' hh' hacc hle
          have hh'f : h' ∈ (ownedHistory db.assets u).filter
              (fun h => h.accountId == i && h.effectiveDate ≤ d) :=
            List.mem_filter.mpr ⟨hh', by simp [hacc, hle]⟩
          exact le_getLast_of_sorted hpairf hg h' hh'f
      | none =>
          right
          have hnil : (ownedHistory db.assets u).filter
              (fun h => h.accountId == i && h.effectiveDate ≤ d) = [] := by
            cases hfe : (ownedHistory db.assets u).filter
                (fun h => h.accountId == i && h.effectiveDate ≤ d) with
            | nil => rfl
            | cons a as =>
                rw [hfe] at hg
                have hsome : (a :: as).getLast?.isSome :=
                  List.getLast?_isSome.mpr (by simp)
                rw [hg] at hsome
                cases hsome
          constructor
          · intro h hh hacc hle
            have : h ∈ (ownedHistory db.assets u).filter
                (fun h => h.accountId == i && h.effectiveDate ≤ d) :=
              List.mem_filter.mpr ⟨hh, by simp [hacc, hle]⟩
            rw [hnil] at this
            cases this
          · simp only [hg]

/-- Witness for C5 at a concrete input: in `dbH` (asset 1 at days 5 and 20,
asset 2 at day 10, a debt at day 20), the day-10 entry carries forward asset
1's day-5 value (450) plus asset 2's day-10 value (300). -/
theorem getFinancialHistory_spec_witness :
    (⟨10, 750, 0, 750⟩ : HistoryEntry).netWorth
      = (⟨10, 750, 0, 750⟩ : HistoryEntry).assets
          - (⟨10, 750, 0, 750⟩ : HistoryEntry).debts ∧
    ∃ (ids : List Nat) (f : Nat → Int),
      ids.Nodup ∧
      (∀ i : Nat, i ∈ ids ↔ ∃ h, h ∈ ownedHistory dbH.assets "u1" ∧ h.accountId = i) ∧
      (⟨10, 750, 0, 750⟩ : HistoryEntry).assets = (ids.map f).sum ∧
      ∀ i ∈ ids, LatestContribution (ownedHistory dbH.assets "u1") i
        (⟨10, 750, 0, 750⟩ : HistoryEntry).date (f i) :=
  (getFinancialHistory_spec dbH "u1").2.2 ⟨10, 750, 0, 750⟩ (by decide)

end FundPlan
